import Mathlib

/-!
# Verification of the tuih terminal UI library (src/tui.h)

This file is a shallow embedding, in Lean 4, of the parts of `src/tui.h`
that the specification's testable claims are about:

* the Unicode display-width classifier `tui_char_width`;
* the UTF-8 encoder/decoder;
* the renderer: cell model, double buffer, `tui_begin_frame`,
  drawing primitives (`tui_set_cell`, `tui_set_cell_wide`, `tui_label`,
  `tui_fill`, `tui_clear`, style setters) and the diff flush in
  `tui_end_frame` together with the exact byte stream it emits;
* the incremental input decoder `tui_parse_csi_params` /
  `tui_parse_escape_sequence` over the input byte queue;
* the widget tree, three-phase event routing (`tui_wm_route_event`,
  `tui_widget_call_handlers`, `tui_widget_build_path`), the hotkey table
  (`tui_wm_check_hotkeys`) and the built-in textarea editing behaviour
  (`tui_widget_handle_textarea_input`).

C machine integers are modelled as `Nat` (values that are provably
non-negative in the source: sizes, colours, code points, style bytes) or
`Int` (coordinates, which the source compares against 0).  The circular
input buffer is modelled as the FIFO list of its readable bytes.  The
buffered output sink is modelled by the totally ordered list of bytes
written through it (flushing preserves order, so claims about emitted
bytes are claims about this list).  C callbacks (widget event handlers,
hotkey handlers) are modelled by the effect they can have on the routed
event through the public helpers `tui_widget_event_stop` /
`_prevent` / `_consume`: a `Directive` records which helpers the callback
invokes.  Nullable pointers of the public API are modelled by `Option`.
-/

namespace Tui

/-! ## Unicode display width (`tui_char_width`, src/tui.h lines 879-917) -/

/-- `tui_char_width` from the source: display width of a code point. -/
def tui_char_width (cp : Nat) : Nat :=
  if cp = 0 then 0
  else if cp < 32 ∨ (cp ≥ 0x7F ∧ cp < 0xA0) then 0
  else if (cp ≥ 0x0300 ∧ cp ≤ 0x036F) ∨
          (cp ≥ 0x1AB0 ∧ cp ≤ 0x1AFF) ∨
          (cp ≥ 0x1DC0 ∧ cp ≤ 0x1DFF) ∨
          (cp ≥ 0x20D0 ∧ cp ≤ 0x20FF) ∨
          (cp ≥ 0xFE20 ∧ cp ≤ 0xFE2F) ∨
          cp = 0x200B ∨ cp = 0x200C ∨ cp = 0x200D ∨ cp = 0xFEFF then 0
  else if (cp ≥ 0x1100 ∧ cp ≤ 0x115F) ∨
          (cp ≥ 0x2E80 ∧ cp ≤ 0x9FFF) ∨
          (cp ≥ 0xAC00 ∧ cp ≤ 0xD7A3) ∨
          (cp ≥ 0xF900 ∧ cp ≤ 0xFAFF) ∨
          (cp ≥ 0xFE10 ∧ cp ≤ 0xFE1F) ∨
          (cp ≥ 0xFE30 ∧ cp ≤ 0xFE6F) ∨
          (cp ≥ 0xFF00 ∧ cp ≤ 0xFF60) ∨
          (cp ≥ 0xFFE0 ∧ cp ≤ 0xFFE6) ∨
          (cp ≥ 0x20000 ∧ cp ≤ 0x2FFFD) ∨
          (cp ≥ 0x30000 ∧ cp ≤ 0x3FFFD) then 2
  else if (cp ≥ 0x1F300 ∧ cp ≤ 0x1F9FF) ∨
          (cp ≥ 0x2600 ∧ cp ≤ 0x26FF) ∨
          (cp ≥ 0x2700 ∧ cp ≤ 0x27BF) then 2
  else 1

/-- The set of code points the spec (§6) credits with width 2, with the
vertical/CJK-compatibility block corrected to the two sub-ranges the source
actually treats as wide: `0xFE10-0xFE1F` and `0xFE30-0xFE6F` (the combining
half marks `0xFE20-0xFE2F` are classified zero-width first). -/
def specWideRanges (cp : Nat) : Prop :=
  (cp ≥ 0x1100 ∧ cp ≤ 0x115F) ∨
  (cp ≥ 0x2E80 ∧ cp ≤ 0x9FFF) ∨
  (cp ≥ 0xAC00 ∧ cp ≤ 0xD7A3) ∨
  (cp ≥ 0xF900 ∧ cp ≤ 0xFAFF) ∨
  (cp ≥ 0xFE10 ∧ cp ≤ 0xFE1F) ∨
  (cp ≥ 0xFE30 ∧ cp ≤ 0xFE6F) ∨
  (cp ≥ 0xFF00 ∧ cp ≤ 0xFF60) ∨
  (cp ≥ 0xFFE0 ∧ cp ≤ 0xFFE6) ∨
  (cp ≥ 0x20000 ∧ cp ≤ 0x2FFFD) ∨
  (cp ≥ 0x30000 ∧ cp ≤ 0x3FFFD) ∨
  (cp ≥ 0x1F300 ∧ cp ≤ 0x1F9FF) ∨
  (cp ≥ 0x2600 ∧ cp ≤ 0x27BF)

/-- The set of code points the spec classifies zero-width: controls,
combining marks, zero-width format characters. -/
def specZeroRanges (cp : Nat) : Prop :=
  cp = 0 ∨ cp < 32 ∨ (cp ≥ 0x7F ∧ cp < 0xA0) ∨
  (cp ≥ 0x0300 ∧ cp ≤ 0x036F) ∨
  (cp ≥ 0x1AB0 ∧ cp ≤ 0x1AFF) ∨
  (cp ≥ 0x1DC0 ∧ cp ≤ 0x1DFF) ∨
  (cp ≥ 0x20D0 ∧ cp ≤ 0x20FF) ∨
  (cp ≥ 0xFE20 ∧ cp ≤ 0xFE2F) ∨
  cp = 0x200B ∨ cp = 0x200C ∨ cp = 0x200D ∨ cp = 0xFEFF

instance (cp : Nat) : Decidable (specWideRanges cp) := by
  unfold specWideRanges; infer_instance

instance (cp : Nat) : Decidable (specZeroRanges cp) := by
  unfold specZeroRanges; infer_instance

/-! ## UTF-8 codec (`tui_utf8_encode` / `tui_utf8_decode`,
src/tui.h lines 966-1015) -/

/-- `tui_utf8_encode` from the source: the bytes written for a code point
(1 to 4 bytes; out-of-range code points encode as `'?'`). -/
def tui_utf8_encode (cp : Nat) : List Nat :=
  if cp < 0x80 then [cp]
  else if cp < 0x800 then
    [0xC0 ||| (cp >>> 6), 0x80 ||| (cp &&& 0x3F)]
  else if cp < 0x10000 then
    [0xE0 ||| (cp >>> 12), 0x80 ||| ((cp >>> 6) &&& 0x3F), 0x80 ||| (cp &&& 0x3F)]
  else if cp < 0x110000 then
    [0xF0 ||| (cp >>> 18), 0x80 ||| ((cp >>> 12) &&& 0x3F),
     0x80 ||| ((cp >>> 6) &&& 0x3F), 0x80 ||| (cp &&& 0x3F)]
  else [('?').toNat]

/-- `tui_utf8_decode` from the source: given the readable bytes, returns
`(codepoint, bytes consumed)`; on truncation or an invalid lead byte the
lead byte itself is returned and one byte consumed.  Returns consumed = 0
only on an empty input (the C returns 0 with `*out` unset). -/
def tui_utf8_decode (data : List Nat) : Nat × Nat :=
  match data with
  | [] => (0, 0)
  | b0 :: rest =>
    if b0 < 0x80 then (b0, 1)
    else if b0 &&& 0xE0 = 0xC0 ∧ rest.length ≥ 1 then
      (((b0 &&& 0x1F) <<< 6) ||| (rest.getD 0 0 &&& 0x3F), 2)
    else if b0 &&& 0xF0 = 0xE0 ∧ rest.length ≥ 2 then
      (((b0 &&& 0x0F) <<< 12) ||| ((rest.getD 0 0 &&& 0x3F) <<< 6) |||
        (rest.getD 1 0 &&& 0x3F), 3)
    else if b0 &&& 0xF8 = 0xF0 ∧ rest.length ≥ 3 then
      (((b0 &&& 0x07) <<< 18) ||| ((rest.getD 0 0 &&& 0x3F) <<< 12) |||
        ((rest.getD 1 0 &&& 0x3F) <<< 6) ||| (rest.getD 2 0 &&& 0x3F), 4)
    else (b0, 1)

/-- C8 counterexample: the claim asserts width 2 on the entire range
`0xFE10-0xFE6F`, but the source classifies the combining half marks
`0xFE20-0xFE2F` as zero-width before ever reaching the wide ranges:
`tui_char_width 0xFE20 = 0`, not 2. -/
theorem char_width_fe20_zero :
    0xFE10 ≤ 0xFE20 ∧ 0xFE20 ≤ 0xFE6F ∧ tui_char_width 0xFE20 = 0 := by
  decide

/-- C8 (amended): `tui_char_width` returns 2 exactly on the §6 ranges with
the vertical/CJK-compatibility block restricted to `0xFE10-0xFE1F` and
`0xFE30-0xFE6F`; it returns 0 for controls, combining marks (including the
half marks `0xFE20-0xFE2F`) and zero-width format characters, and 1 for
every other code point. -/
theorem char_width_matches_spec (cp : Nat) :
    (specWideRanges cp → tui_char_width cp = 2) ∧
    (specZeroRanges cp → tui_char_width cp = 0) ∧
    (¬ specWideRanges cp → ¬ specZeroRanges cp → tui_char_width cp = 1) := by
  unfold specWideRanges specZeroRanges tui_char_width
  refine ⟨?_, ?_, ?_⟩ <;> intros <;> split_ifs <;> omega

/-- Witness for `char_width_matches_spec`: evaluates each conjunct at a
concrete code point (a wide CJK char, a combining half mark, a plain ASCII
letter). -/
theorem char_width_matches_spec_witness :
    tui_char_width 0x4E2D = 2 ∧ tui_char_width 0xFE20 = 0 ∧
      tui_char_width 97 = 1 :=
  ⟨(char_width_matches_spec 0x4E2D).1 (by decide),
   (char_width_matches_spec 0xFE20).2.1 (by decide),
   (char_width_matches_spec 97).2.2 (by decide) (by decide)⟩

/-! ## Cell model and renderer context (src/tui.h lines 28-34, 554-636,
1051-1077) -/

def TUI_MAX_WIDTH : Nat := 512
def TUI_MAX_HEIGHT : Nat := 256
def TUI_INPUT_BUFFER_SIZE : Nat := 64
def TUI_COLOR_DEFAULT : Nat := 0x80000000

/-- `tui_cell`: glyph + colours + style flags.  `tui_cell_equal` is
member-wise equality, i.e. `DecidableEq`. -/
structure Cell where
  codepoint : Nat
  fg : Nat
  bg : Nat
  underline_color : Nat
  style : Nat
deriving DecidableEq, Repr

/-- `tui_make_empty_cell`: a space with default colours, no style. -/
def tui_make_empty_cell : Cell :=
  { codepoint := 32, fg := TUI_COLOR_DEFAULT, bg := TUI_COLOR_DEFAULT,
    underline_color := TUI_COLOR_DEFAULT, style := 0 }

/-- ASCII bytes of a literal escape-sequence string. -/
def strBytes (s : String) : List Nat := s.toList.map Char.toNat

/-- `tui_output_int`: decimal formatting of a C `int` (sign then digits),
as the byte list it appends to the output buffer. -/
def intBytes (v : Int) : List Nat := strBytes (toString v)

/-- `tui_output_int` on a value that is a non-negative colour component. -/
def natBytes (n : Nat) : List Nat := strBytes (toString n)

/-- `tui_context`: the fields of the renderer context that the embedded
operations read or write.  `front`/`back` are the cell grids addressed by
`idx = y * TUI_MAX_WIDTH + x`; `out` is the totally ordered list of bytes
written through the buffered output sink (order is preserved by
`tui_output_flush`, so emitted-byte claims are claims about `out`);
`input` is the FIFO content of the circular input buffer; `term_w`/`term_h`
model the terminal-size query result; `sigwinch` models the resize latch. -/
structure Context where
  width : Nat := 80
  height : Nat := 24
  term_w : Nat := 80
  term_h : Nat := 24
  front : Nat → Cell := fun _ => tui_make_empty_cell
  back : Nat → Cell := fun _ => tui_make_empty_cell
  current_fg : Nat := TUI_COLOR_DEFAULT
  current_bg : Nat := TUI_COLOR_DEFAULT
  current_underline_color : Nat := TUI_COLOR_DEFAULT
  current_style : Nat := 0
  cursor_x : Int := 0
  cursor_y : Int := 0
  cursor_visible : Bool := false
  mouse_x : Int := 0
  mouse_y : Int := 0
  button_pressed : Bool := false
  is_pasting : Bool := false
  initialized : Bool := true
  in_frame : Bool := false
  needs_redraw : Bool := false
  resized : Bool := false
  sigwinch : Bool := false
  input : List Nat := []
  out : List Nat := []

/-- `tui_get_terminal_size`: refresh `width`/`height` from the terminal,
clamped to the maximum buffer dimensions. -/
def getTerminalSize (ctx : Context) : Context :=
  { ctx with width := min ctx.term_w TUI_MAX_WIDTH,
             height := min ctx.term_h TUI_MAX_HEIGHT }

/-- `tui_clear_buffer` over the full scratch area: every cell empty. -/
def clearBuffer : Nat → Cell := fun _ => tui_make_empty_cell

/-! ### ANSI emitters (src/tui.h lines 709-871) as the byte lists they
write through the output sink -/

def moveCursorBytes (x y : Int) : List Nat :=
  strBytes "\x1b[" ++ intBytes (y + 1) ++ strBytes ";" ++ intBytes (x + 1)
    ++ strBytes "H"

def showCursorBytes : List Nat := strBytes "\x1b[?25h"

def resetBytes : List Nat := strBytes "\x1b[0m"

def setFgBytes (color : Nat) : List Nat :=
  if color &&& 0x80000000 ≠ 0 then strBytes "\x1b[39m"
  else strBytes "\x1b[38;2;" ++ natBytes ((color >>> 16) &&& 0xFF)
    ++ strBytes ";" ++ natBytes ((color >>> 8) &&& 0xFF)
    ++ strBytes ";" ++ natBytes (color &&& 0xFF) ++ strBytes "m"

def setBgBytes (color : Nat) : List Nat :=
  if color &&& 0x80000000 ≠ 0 then strBytes "\x1b[49m"
  else strBytes "\x1b[48;2;" ++ natBytes ((color >>> 16) &&& 0xFF)
    ++ strBytes ";" ++ natBytes ((color >>> 8) &&& 0xFF)
    ++ strBytes ";" ++ natBytes (color &&& 0xFF) ++ strBytes "m"

def setStyleBytes (style : Nat) : List Nat :=
  (if style &&& 0x01 ≠ 0 then strBytes "\x1b[1m" else []) ++
  (if style &&& 0x02 ≠ 0 then strBytes "\x1b[2m" else []) ++
  (if style &&& 0x04 ≠ 0 then strBytes "\x1b[3m" else []) ++
  (if style &&& 0x08 ≠ 0 then strBytes "\x1b[4m" else []) ++
  (if style &&& 0x10 ≠ 0 then strBytes "\x1b[5m" else []) ++
  (if style &&& 0x20 ≠ 0 then strBytes "\x1b[7m" else []) ++
  (if style &&& 0x40 ≠ 0 then strBytes "\x1b[9m" else []) ++
  (if style &&& 0x80 ≠ 0 then strBytes "\x1b[4:3m" else [])

def setUnderlineColorBytes (color : Nat) : List Nat :=
  if color &&& 0x80000000 ≠ 0 then strBytes "\x1b[59m"
  else strBytes "\x1b[58;2;" ++ natBytes ((color >>> 16) &&& 0xFF)
    ++ strBytes ";" ++ natBytes ((color >>> 8) &&& 0xFF)
    ++ strBytes ";" ++ natBytes (color &&& 0xFF) ++ strBytes "m"

def beginSyncBytes : List Nat := strBytes "\x1b[?2026h"

def endSyncBytes : List Nat := strBytes "\x1b[?2026l"

def clearScreenBytes : List Nat := strBytes "\x1b[0m\x1b[2J\x1b[H"

/-! ### Drawing primitives (src/tui.h lines 1849-2043, 2326-2412) -/

/-- Point update of a cell grid. -/
def updateBuf (b : Nat → Cell) (i : Nat) (c : Cell) : Nat → Cell :=
  fun j => if j = i then c else b j

/-- `tui_set_cell` on a non-null context. -/
def setCell (ctx : Context) (x y : Int) (cp : Nat) : Context :=
  if ¬ctx.in_frame then ctx
  else if x < 0 ∨ x ≥ (ctx.width : Int) ∨ y < 0 ∨ y ≥ (ctx.height : Int) then
    ctx
  else
    let idx := y.toNat * TUI_MAX_WIDTH + x.toNat
    let c : Cell :=
      { codepoint := cp, fg := ctx.current_fg, bg := ctx.current_bg,
        underline_color := ctx.current_underline_color,
        style := ctx.current_style }
    { ctx with back := updateBuf ctx.back idx c }

/-- `tui_set_cell_wide` on a non-null context: writes the wide glyph at
`x` and a continuation space at `x + 1`; refuses when `x ≥ width - 1`. -/
def setCellWide (ctx : Context) (x y : Int) (cp : Nat) : Context :=
  if ¬ctx.in_frame then ctx
  else if x < 0 ∨ x ≥ (ctx.width : Int) - 1 ∨ y < 0 ∨ y ≥ (ctx.height : Int)
  then ctx
  else
    let idx := y.toNat * TUI_MAX_WIDTH + x.toNat
    let c : Cell :=
      { codepoint := cp, fg := ctx.current_fg, bg := ctx.current_bg,
        underline_color := ctx.current_underline_color,
        style := ctx.current_style }
    let cont : Cell := { c with codepoint := 32 }
    { ctx with back := updateBuf (updateBuf ctx.back idx c) (idx + 1) cont }

/-- The decoder consumes at least one byte of a non-empty input. -/
theorem tui_utf8_decode_snd_pos (b : Nat) (rest : List Nat) :
    1 ≤ (tui_utf8_decode (b :: rest)).2 := by
  simp only [tui_utf8_decode]
  split_ifs <;> simp

/-- Dropping what the decoder consumed shortens a non-empty input. -/
theorem tui_utf8_decode_drop_lt (b : Nat) (rest : List Nat) :
    (List.drop (tui_utf8_decode (b :: rest)).2 (b :: rest)).length <
      (b :: rest).length := by
  have h1 := tui_utf8_decode_snd_pos b rest
  simp only [List.length_drop, List.length_cons]
  omega

/-- The loop of `tui_label`: decode UTF-8 left to right while bytes remain
and the current column is inside the screen. -/
def labelLoop (x : Int) (y : Int) (cur_x : Int) (ctx : Context)
    (bytes : List Nat) : Context :=
  match bytes with
  | [] => ctx
  | b :: rest =>
    if cur_x < (ctx.width : Int) then
      let d := tui_utf8_decode (b :: rest)
      let cp := d.1
      let remaining := (b :: rest).drop d.2
      if cp = 10 then
        labelLoop x (y + 1) x ctx remaining
      else if cp ≥ 32 then
        if tui_char_width cp = 2 then
          if cur_x + 1 < (ctx.width : Int) then
            labelLoop x y (cur_x + 2) (setCellWide ctx cur_x y cp) remaining
          else
            labelLoop x y (cur_x + 1) ctx remaining
        else if tui_char_width cp = 1 then
          labelLoop x y (cur_x + 1) (setCell ctx cur_x y cp) remaining
        else
          labelLoop x y cur_x ctx remaining
      else
        labelLoop x y cur_x ctx remaining
    else ctx
  termination_by bytes.length
  decreasing_by
    all_goals exact tui_utf8_decode_drop_lt _ _

/-- `tui_label` on a non-null context (the `y` travelling through `\n` is
mutated in place in the source; here it is the second loop argument). -/
def label (ctx : Context) (x y : Int) (text : List Nat) : Context :=
  if ¬ctx.in_frame then ctx else labelLoop x y x ctx text

/-- `tui_fill` on a non-null context. -/
def fill (ctx : Context) (x y : Int) (w h : Int) (cp : Nat) : Context :=
  if ¬ctx.in_frame then ctx
  else
    (List.range h.toNat).foldl
      (fun c j => (List.range w.toNat).foldl
        (fun c' i => setCell c' (x + i) (y + j) cp) c) ctx

/-- `tui_clear` on a non-null context: fill the visible area with spaces. -/
def clear (ctx : Context) : Context :=
  if ¬ctx.in_frame then ctx
  else
    (List.range ctx.height).foldl
      (fun c yy => (List.range ctx.width).foldl
        (fun c' xx => setCell c' xx yy 32) c) ctx

/-! ### Frame lifecycle (src/tui.h lines 1860-1974) -/

/-- `tui_begin_frame` on a non-null context: refresh size, clear the whole
back buffer, reset fg/bg/style (not the underline colour), clear the
per-frame button latch, enter the frame. -/
def beginFrame (ctx : Context) : Context :=
  if ¬ctx.initialized then ctx
  else
    let ctx := getTerminalSize ctx
    { ctx with back := clearBuffer,
               current_fg := TUI_COLOR_DEFAULT,
               current_bg := TUI_COLOR_DEFAULT,
               current_style := 0,
               button_pressed := false,
               in_frame := true }

/-- Accumulator of the diff loop in `tui_end_frame`: the front buffer
being updated, the output bytes, and the running `last_*` values. -/
structure DiffAcc where
  front : Nat → Cell
  out : List Nat
  last_fg : Nat
  last_bg : Nat
  last_underline_color : Nat
  last_style : Nat
  last_x : Int
  last_y : Int

/-- One cell of the diff loop in `tui_end_frame`. -/
def endFrameCell (back : Nat → Cell) (acc : DiffAcc) (p : Nat × Nat) :
    DiffAcc :=
  let x := p.1
  let y := p.2
  let idx := y * TUI_MAX_WIDTH + x
  let f := acc.front idx
  let b := back idx
  if f = b then acc
  else
    let acc :=
      if acc.last_x = (x : Int) - 1 ∧ acc.last_y = (y : Int) then acc
      else { acc with out := acc.out ++ moveCursorBytes (x : Int) (y : Int) }
    let acc :=
      if b.style ≠ acc.last_style then
        { acc with out := acc.out ++ resetBytes ++ setStyleBytes b.style,
                   last_style := b.style, last_fg := 0xFFFFFFFF,
                   last_bg := 0xFFFFFFFF,
                   last_underline_color := 0xFFFFFFFF }
      else acc
    let acc :=
      if b.fg ≠ acc.last_fg then
        { acc with out := acc.out ++ setFgBytes b.fg, last_fg := b.fg }
      else acc
    let acc :=
      if b.bg ≠ acc.last_bg then
        { acc with out := acc.out ++ setBgBytes b.bg, last_bg := b.bg }
      else acc
    let acc :=
      if b.underline_color ≠ acc.last_underline_color then
        { acc with out := acc.out ++ setUnderlineColorBytes b.underline_color,
                   last_underline_color := b.underline_color }
      else acc
    { acc with out := acc.out ++ tui_utf8_encode b.codepoint,
               front := updateBuf acc.front idx b,
               last_x := (x : Int), last_y := (y : Int) }

/-- The row-major visible cell coordinates scanned by the diff loop. -/
def cellList (w h : Nat) : List (Nat × Nat) :=
  (List.range h).flatMap fun y => (List.range w).map fun x => (x, y)

/-- `tui_end_frame` on a non-null context. -/
def endFrame (ctx : Context) : Context :=
  if ¬ctx.initialized ∨ ¬ctx.in_frame then ctx
  else
    let ctx :=
      if ctx.needs_redraw then
        { ctx with needs_redraw := false,
                   out := ctx.out ++ clearScreenBytes,
                   front := clearBuffer }
      else ctx
    let ctx := { ctx with out := ctx.out ++ beginSyncBytes }
    let acc0 : DiffAcc :=
      { front := ctx.front, out := ctx.out, last_fg := 0xFFFFFFFF,
        last_bg := 0xFFFFFFFF, last_underline_color := 0xFFFFFFFF,
        last_style := 0xFF, last_x := -2, last_y := -2 }
    let acc := (cellList ctx.width ctx.height).foldl (endFrameCell ctx.back)
      acc0
    let ctx := { ctx with front := acc.front, out := acc.out }
    let ctx :=
      if ctx.cursor_visible then
        { ctx with out := ctx.out ++ moveCursorBytes ctx.cursor_x ctx.cursor_y
                     ++ showCursorBytes }
      else ctx
    { ctx with out := ctx.out ++ endSyncBytes, in_frame := false }

/-! ### Drawing-call sequences between `begin_frame` and `end_frame` -/

/-- One drawing call of the public API, as issued between `tui_begin_frame`
and `tui_end_frame`. -/
inductive DrawOp where
  | set_fg (c : Nat)
  | set_bg (c : Nat)
  | set_style (s : Nat)
  | set_underline_color (c : Nat)
  | set_cell (x y : Int) (cp : Nat)
  | set_cell_wide (x y : Int) (cp : Nat)
  | label (x y : Int) (text : List Nat)
  | fill (x y : Int) (w h : Int) (cp : Nat)
  | clear

/-- Apply one drawing call to a (non-null) context. -/
def applyOp (ctx : Context) : DrawOp → Context
  | .set_fg c => { ctx with current_fg := c }
  | .set_bg c => { ctx with current_bg := c }
  | .set_style s => { ctx with current_style := s }
  | .set_underline_color c => { ctx with current_underline_color := c }
  | .set_cell x y cp => setCell ctx x y cp
  | .set_cell_wide x y cp => setCellWide ctx x y cp
  | .label x y t => label ctx x y t
  | .fill x y w h cp => fill ctx x y w h cp
  | .clear => clear ctx

/-- Apply a sequence of drawing calls. -/
def applyOps (ops : List DrawOp) (ctx : Context) : Context :=
  ops.foldl applyOp ctx

/-- `tui_set_cell` changes at most the back buffer. -/
theorem setCell_back_only (ctx : Context) (x y : Int) (cp : Nat) :
    ∃ b, setCell ctx x y cp = { ctx with back := b } := by
  unfold setCell
  split_ifs <;> exact ⟨_, rfl⟩

/-- `tui_set_cell_wide` changes at most the back buffer. -/
theorem setCellWide_back_only (ctx : Context) (x y : Int) (cp : Nat) :
    ∃ b, setCellWide ctx x y cp = { ctx with back := b } := by
  unfold setCellWide
  split_ifs <;> exact ⟨_, rfl⟩

/-- The label loop changes at most the back buffer. -/
theorem labelLoop_back_only (x y cur_x : Int) (ctx : Context)
    (bytes : List Nat) :
    ∃ b, labelLoop x y cur_x ctx bytes = { ctx with back := b } := by
  induction y, cur_x, ctx, bytes using labelLoop.induct
  case case1 => rw [labelLoop]; exact ⟨_, rfl⟩
  case case2 y cur_x ctx b rest h d cp remaining hnl ih =>
    rw [labelLoop, if_pos h, if_pos hnl]
    exact ih
  case case3 y cur_x ctx b rest h d cp remaining hnl hge hw2 hfit ih =>
    rw [labelLoop, if_pos h, if_neg hnl, if_pos hge, if_pos hw2, if_pos hfit]
    obtain ⟨b1, hb1⟩ := setCellWide_back_only ctx cur_x y cp
    rw [hb1] at ih ⊢
    obtain ⟨b2, hb2⟩ := ih
    exact ⟨b2, by rw [hb2]⟩
  case case4 y cur_x ctx b rest h d cp remaining hnl hge hw2 hfit ih =>
    rw [labelLoop, if_pos h, if_neg hnl, if_pos hge, if_pos hw2, if_neg hfit]
    exact ih
  case case5 y cur_x ctx b rest h d cp remaining hnl hge hw2 hw1 ih =>
    rw [labelLoop, if_pos h, if_neg hnl, if_pos hge, if_neg hw2, if_pos hw1]
    obtain ⟨b1, hb1⟩ := setCell_back_only ctx cur_x y cp
    rw [hb1] at ih ⊢
    obtain ⟨b2, hb2⟩ := ih
    exact ⟨b2, by rw [hb2]⟩
  case case6 y cur_x ctx b rest h d cp remaining hnl hge hw2 hw1 ih =>
    rw [labelLoop, if_pos h, if_neg hnl, if_pos hge, if_neg hw2, if_neg hw1]
    exact ih
  case case7 y cur_x ctx b rest h d cp remaining hnl hge ih =>
    rw [labelLoop, if_pos h, if_neg hnl, if_neg hge]
    exact ih
  case case8 y cur_x ctx b rest h =>
    rw [labelLoop, if_neg h]
    exact ⟨_, rfl⟩

/-- Folding back-buffer-only updates changes at most the back buffer. -/
theorem foldl_back_only {α : Type} (f : Context → α → Context)
    (hf : ∀ c a, ∃ b, f c a = { c with back := b }) :
    ∀ (l : List α) (c : Context), ∃ b, l.foldl f c = { c with back := b } := by
  intro l
  induction l with
  | nil => exact fun c => ⟨c.back, rfl⟩
  | cons a t ih =>
    intro c
    obtain ⟨b1, hb1⟩ := hf c a
    obtain ⟨b2, hb2⟩ := ih (f c a)
    rw [List.foldl_cons, hb2, hb1]
    exact ⟨b2, rfl⟩

/-- `tui_label` changes at most the back buffer. -/
theorem label_back_only (ctx : Context) (x y : Int) (t : List Nat) :
    ∃ b, label ctx x y t = { ctx with back := b } := by
  unfold label
  split_ifs <;>
    first
      | exact ⟨ctx.back, rfl⟩
      | exact labelLoop_back_only x y x ctx t

/-- `tui_fill` changes at most the back buffer. -/
theorem fill_back_only (ctx : Context) (x y w h : Int) (cp : Nat) :
    ∃ b, fill ctx x y w h cp = { ctx with back := b } := by
  unfold fill
  split_ifs <;>
    first
      | exact ⟨ctx.back, rfl⟩
      | exact foldl_back_only _
          (fun c j => foldl_back_only _
            (fun c' i => setCell_back_only c' (x + i) (y + j) cp) _ c) _ ctx

/-- `tui_clear` changes at most the back buffer. -/
theorem clear_back_only (ctx : Context) :
    ∃ b, clear ctx = { ctx with back := b } := by
  unfold clear
  split_ifs <;>
    first
      | exact ⟨ctx.back, rfl⟩
      | exact foldl_back_only _
          (fun c yy => foldl_back_only _
            (fun c' xx => setCell_back_only c' xx yy 32) _ c) _ ctx

/-- A drawing call never touches the frame geometry, the frame/init flags,
the front buffer, the emitted bytes, the cursor, or the redraw latch. -/
theorem applyOp_preserves (ctx : Context) (op : DrawOp) :
    (applyOp ctx op).width = ctx.width ∧
    (applyOp ctx op).height = ctx.height ∧
    (applyOp ctx op).in_frame = ctx.in_frame ∧
    (applyOp ctx op).initialized = ctx.initialized ∧
    (applyOp ctx op).front = ctx.front ∧
    (applyOp ctx op).out = ctx.out ∧
    (applyOp ctx op).cursor_visible = ctx.cursor_visible ∧
    (applyOp ctx op).needs_redraw = ctx.needs_redraw ∧
    (applyOp ctx op).cursor_x = ctx.cursor_x ∧
    (applyOp ctx op).cursor_y = ctx.cursor_y := by
  cases op with
  | set_fg c => simp [applyOp]
  | set_bg c => simp [applyOp]
  | set_style s => simp [applyOp]
  | set_underline_color c => simp [applyOp]
  | set_cell x y cp =>
    obtain ⟨b, hb⟩ := setCell_back_only ctx x y cp
    simp [applyOp, hb]
  | set_cell_wide x y cp =>
    obtain ⟨b, hb⟩ := setCellWide_back_only ctx x y cp
    simp [applyOp, hb]
  | label x y t =>
    obtain ⟨b, hb⟩ := label_back_only ctx x y t
    simp [applyOp, hb]
  | fill x y w h cp =>
    obtain ⟨b, hb⟩ := fill_back_only ctx x y w h cp
    simp [applyOp, hb]
  | clear =>
    obtain ⟨b, hb⟩ := clear_back_only ctx
    simp [applyOp, hb]

/-- Sequences of drawing calls preserve the same fields. -/
theorem applyOps_preserves (ops : List DrawOp) (ctx : Context) :
    (applyOps ops ctx).width = ctx.width ∧
    (applyOps ops ctx).height = ctx.height ∧
    (applyOps ops ctx).in_frame = ctx.in_frame ∧
    (applyOps ops ctx).initialized = ctx.initialized ∧
    (applyOps ops ctx).front = ctx.front ∧
    (applyOps ops ctx).out = ctx.out ∧
    (applyOps ops ctx).cursor_visible = ctx.cursor_visible ∧
    (applyOps ops ctx).needs_redraw = ctx.needs_redraw ∧
    (applyOps ops ctx).cursor_x = ctx.cursor_x ∧
    (applyOps ops ctx).cursor_y = ctx.cursor_y := by
  induction ops generalizing ctx with
  | nil => exact ⟨rfl, rfl, rfl, rfl, rfl, rfl, rfl, rfl, rfl, rfl⟩
  | cons op t ih =>
    have h1 := applyOp_preserves ctx op
    have h2 := ih (applyOp ctx op)
    unfold applyOps at h2 ⊢
    rw [List.foldl_cons]
    exact ⟨h2.1.trans h1.1, h2.2.1.trans h1.2.1, h2.2.2.1.trans h1.2.2.1,
      h2.2.2.2.1.trans h1.2.2.2.1, h2.2.2.2.2.1.trans h1.2.2.2.2.1,
      h2.2.2.2.2.2.1.trans h1.2.2.2.2.2.1,
      h2.2.2.2.2.2.2.1.trans h1.2.2.2.2.2.2.1,
      h2.2.2.2.2.2.2.2.1.trans h1.2.2.2.2.2.2.2.1,
      h2.2.2.2.2.2.2.2.2.1.trans h1.2.2.2.2.2.2.2.2.1,
      h2.2.2.2.2.2.2.2.2.2.trans h1.2.2.2.2.2.2.2.2.2⟩

/-! ### Properties of the diff loop in `tui_end_frame` -/

/-- The diff step changes the front buffer only by copying the changed
back cell. -/
theorem endFrameCell_front (back : Nat → Cell) (acc : DiffAcc)
    (p : Nat × Nat) :
    (endFrameCell back acc p).front =
      if acc.front (p.2 * TUI_MAX_WIDTH + p.1) =
          back (p.2 * TUI_MAX_WIDTH + p.1)
      then acc.front
      else updateBuf acc.front (p.2 * TUI_MAX_WIDTH + p.1)
        (back (p.2 * TUI_MAX_WIDTH + p.1)) := by
  simp only [endFrameCell, apply_ite DiffAcc.front, ite_self]

/-- Once the front agrees with the back at an index, later diff steps
keep the agreement. -/
theorem endFrameCell_keeps (back : Nat → Cell) (acc : DiffAcc)
    (p : Nat × Nat) (i : Nat) (h : acc.front i = back i) :
    (endFrameCell back acc p).front i = back i := by
  rw [endFrameCell_front]
  split_ifs with h1
  · exact h
  · unfold updateBuf
    split_ifs with h2
    · rw [h2]
    · exact h

/-- The diff step makes the front agree with the back at its own cell. -/
theorem endFrameCell_fixes (back : Nat → Cell) (acc : DiffAcc)
    (p : Nat × Nat) :
    (endFrameCell back acc p).front (p.2 * TUI_MAX_WIDTH + p.1) =
      back (p.2 * TUI_MAX_WIDTH + p.1) := by
  rw [endFrameCell_front]
  split_ifs with h1
  · exact h1
  · unfold updateBuf
    rw [if_pos rfl]

/-- The whole diff fold keeps any agreement already established. -/
theorem diff_fold_keeps (back : Nat → Cell) (cells : List (Nat × Nat)) :
    ∀ (acc : DiffAcc) (i : Nat), acc.front i = back i →
      (cells.foldl (endFrameCell back) acc).front i = back i := by
  induction cells with
  | nil => exact fun acc i h => h
  | cons q t ih =>
    intro acc i h
    rw [List.foldl_cons]
    exact ih _ i (endFrameCell_keeps back acc q i h)

/-- After the diff fold, the front agrees with the back at every scanned
cell. -/
theorem diff_fold_agrees (back : Nat → Cell) (cells : List (Nat × Nat)) :
    ∀ (acc : DiffAcc), ∀ p ∈ cells,
      (cells.foldl (endFrameCell back) acc).front
        (p.2 * TUI_MAX_WIDTH + p.1) = back (p.2 * TUI_MAX_WIDTH + p.1) := by
  induction cells with
  | nil => intro acc p hp; simp at hp
  | cons q t ih =>
    intro acc p hp
    rw [List.foldl_cons]
    rcases List.mem_cons.mp hp with h | h
    · subst h
      exact diff_fold_keeps back t _ _ (endFrameCell_fixes back acc p)
    · exact ih _ p h

/-- A diff step on an unchanged cell does nothing. -/
theorem endFrameCell_skip (back : Nat → Cell) (acc : DiffAcc)
    (p : Nat × Nat)
    (h : acc.front (p.2 * TUI_MAX_WIDTH + p.1) =
      back (p.2 * TUI_MAX_WIDTH + p.1)) :
    endFrameCell back acc p = acc := by
  simp only [endFrameCell]
  rw [if_pos h]

/-- A diff fold over cells where front and back already agree is the
identity. -/
theorem diff_fold_id (back : Nat → Cell) (cells : List (Nat × Nat)) :
    ∀ (acc : DiffAcc),
      (∀ p ∈ cells, acc.front (p.2 * TUI_MAX_WIDTH + p.1) =
        back (p.2 * TUI_MAX_WIDTH + p.1)) →
      cells.foldl (endFrameCell back) acc = acc := by
  induction cells with
  | nil => exact fun acc _ => rfl
  | cons q t ih =>
    intro acc h
    rw [List.foldl_cons, endFrameCell_skip back acc q (h q (List.mem_cons_self q t))]
    exact ih acc (fun p hp => h p (List.mem_cons_of_mem q hp))

/-- Membership in the scanned cell list is exactly visibility. -/
theorem mem_cellList (w h x y : Nat) :
    (x, y) ∈ cellList w h ↔ x < w ∧ y < h := by
  unfold cellList
  simp only [List.mem_flatMap, List.mem_map, List.mem_range, Prod.mk.injEq]
  constructor
  · rintro ⟨y', hy', x', hx', hx, hy⟩
    subst hx; subst hy
    exact ⟨hx', hy'⟩
  · rintro ⟨hx, hy⟩
    exact ⟨y, hy, x, hx, rfl, rfl⟩

/-- `tui_end_frame` leaves the terminal size unchanged. -/
theorem endFrame_width (ctx : Context) : (endFrame ctx).width = ctx.width := by
  simp only [endFrame, apply_ite Context.width, ite_self]

/-- `tui_end_frame` leaves the terminal size unchanged. -/
theorem endFrame_height (ctx : Context) :
    (endFrame ctx).height = ctx.height := by
  simp only [endFrame, apply_ite Context.height, ite_self]

/-- `tui_end_frame` never writes the back buffer. -/
theorem endFrame_back (ctx : Context) : (endFrame ctx).back = ctx.back := by
  simp only [endFrame, apply_ite Context.back, ite_self]

/-- C1: for every sequence of drawing calls issued between
`tui_begin_frame` and `tui_end_frame`, the front buffer equals the back
buffer at every visible cell once `tui_end_frame` returns; and outside the
frame the front buffer is exactly the last flushed state, because neither
the drawing calls nor `tui_begin_frame` ever write it. -/
theorem end_frame_front_eq_back (s : Context) (ops : List DrawOp)
    (hinit : s.initialized = true) :
    (∀ x y : Nat,
        x < (endFrame (applyOps ops (beginFrame s))).width →
        y < (endFrame (applyOps ops (beginFrame s))).height →
        (endFrame (applyOps ops (beginFrame s))).front
            (y * TUI_MAX_WIDTH + x) =
          (endFrame (applyOps ops (beginFrame s))).back
            (y * TUI_MAX_WIDTH + x)) ∧
    (∀ (ctx : Context) (op : DrawOp), (applyOp ctx op).front = ctx.front) ∧
    (∀ ctx : Context, (beginFrame ctx).front = ctx.front) := by
  refine ⟨?_, fun ctx op => (applyOp_preserves ctx op).2.2.2.2.1, fun ctx => ?_⟩
  · intro x y hx hy
    have hbi : (beginFrame s).in_frame = true ∧
        (beginFrame s).initialized = true := by
      unfold beginFrame
      rw [if_neg (by simp [hinit])]
      exact ⟨rfl, hinit⟩
    have hp := applyOps_preserves ops (beginFrame s)
    have h1 : (applyOps ops (beginFrame s)).in_frame = true :=
      hp.2.2.1.trans hbi.1
    have h2 : (applyOps ops (beginFrame s)).initialized = true :=
      hp.2.2.2.1.trans hbi.2
    rw [endFrame_width] at hx
    rw [endFrame_height] at hy
    rw [endFrame_back]
    set s1 := applyOps ops (beginFrame s) with hs1
    unfold endFrame
    rw [if_neg (by simp [h1, h2])]
    simp only [apply_ite Context.front, apply_ite Context.back,
      apply_ite Context.width, apply_ite Context.height, ite_self]
    exact diff_fold_agrees s1.back (cellList s1.width s1.height) _ (x, y)
      ((mem_cellList s1.width s1.height x y).mpr ⟨hx, hy⟩)
  · unfold beginFrame
    split_ifs <;> rfl

/-- Witness for `end_frame_front_eq_back`: a 1×1 terminal, one
`set_cell`, and the cell (0,0) after the frame. -/
theorem end_frame_front_eq_back_witness :
    (endFrame (applyOps [DrawOp.set_cell 0 0 65]
        (beginFrame { term_w := 1, term_h := 1 }))).front 0 =
      (endFrame (applyOps [DrawOp.set_cell 0 0 65]
        (beginFrame { term_w := 1, term_h := 1 }))).back 0 :=
  (end_frame_front_eq_back { term_w := 1, term_h := 1 }
    [DrawOp.set_cell 0 0 65] rfl).1 0 0 (by decide) (by decide)

/-- C2 (amended): when `tui_end_frame` runs on a frame whose visible back
buffer is identical to the front buffer (the same frame composed twice in
a row), with `needs_redraw` clear and the cursor hidden, it emits exactly
the synchronized-output wrapper: no repositioning, SGR or glyph bytes. -/
theorem end_frame_identical_sync_only (s : Context)
    (hinit : s.initialized = true) (hf : s.in_frame = true)
    (hnr : s.needs_redraw = false) (hcv : s.cursor_visible = false)
    (hfb : ∀ x y : Nat, x < s.width → y < s.height →
      s.front (y * TUI_MAX_WIDTH + x) = s.back (y * TUI_MAX_WIDTH + x)) :
    (endFrame s).out = s.out ++ (beginSyncBytes ++ endSyncBytes) := by
  unfold endFrame
  rw [if_neg (by simp [hinit, hf])]
  simp only [hnr, hcv, Bool.false_eq_true, if_false]
  rw [diff_fold_id s.back (cellList s.width s.height) _ ?_]
  · simp [List.append_assoc]
  · intro p hp
    have hm := (mem_cellList s.width s.height p.1 p.2).mp (by
      cases p; exact hp)
    exact hfb p.1 p.2 hm.1 hm.2

/-- A 1×1 context with identical (empty) buffers and hidden cursor. -/
def idleCtx : Context :=
  { width := 1, height := 1, term_w := 1, term_h := 1, in_frame := true }

/-- Witness for `end_frame_identical_sync_only`: the 1×1 context with
empty buffers. -/
theorem end_frame_identical_sync_only_witness :
    (endFrame idleCtx).out = ([] : List Nat)
      ++ (beginSyncBytes ++ endSyncBytes) :=
  end_frame_identical_sync_only idleCtx
    rfl rfl rfl rfl (fun _ _ _ _ => rfl)

/-- The concrete context of the C2 counterexample: identical front and
back buffers, `needs_redraw` clear, but a visible cursor. -/
def cursorCtx : Context :=
  { width := 1, height := 1, term_w := 1, term_h := 1, in_frame := true,
    cursor_visible := true }

/-- C2 counterexample: with a visible cursor, an `end_frame` on identical
buffers still emits cursor-repositioning bytes (`ESC [1;1H ESC [?25h`)
inside the wrapper, so the claim's "at most the synchronized-output
wrapper, no cursor-repositioning bytes" fails as stated. -/
theorem end_frame_identical_cursor_repositions :
    (∀ x y : Nat, x < cursorCtx.width → y < cursorCtx.height →
        cursorCtx.front (y * TUI_MAX_WIDTH + x) =
          cursorCtx.back (y * TUI_MAX_WIDTH + x)) ∧
    cursorCtx.needs_redraw = false ∧
    (endFrame cursorCtx).out =
      beginSyncBytes ++ (moveCursorBytes 0 0 ++ showCursorBytes)
        ++ endSyncBytes ∧
    (endFrame cursorCtx).out ≠
      cursorCtx.out ++ (beginSyncBytes ++ endSyncBytes) := by
  refine ⟨fun _ _ _ _ => rfl, rfl, by decide, by decide⟩

/-- C7 (amended): `tui_label` decodes its UTF-8 argument left to right,
but only while the current column is left of the right edge — once the
column reaches the edge processing stops and the remainder of the string
(later newlines included) is ignored.  While inside: `\n` moves drawing
to `(x, y+1)`; width-0 code points (≥ 32) write nothing and do not
advance; a width-1 code point is written and advances by 1; a width-2 code
point whose second column fits is written as glyph + continuation and
advances by 2; a width-2 code point whose second column would reach or
pass the right edge writes no cell at all (the context is unchanged for
it) and the column advances by 1. -/
theorem label_decodes_left_to_right (ctx : Context) (x y cur_x : Int)
    (b : Nat) (rest : List Nat) (cp n : Nat)
    (hd : tui_utf8_decode (b :: rest) = (cp, n)) :
    (¬ cur_x < (ctx.width : Int) →
      labelLoop x y cur_x ctx (b :: rest) = ctx) ∧
    (cur_x < (ctx.width : Int) → cp = 10 →
      labelLoop x y cur_x ctx (b :: rest) =
        labelLoop x (y + 1) x ctx ((b :: rest).drop n)) ∧
    (cur_x < (ctx.width : Int) → cp ≥ 32 → tui_char_width cp = 0 →
      labelLoop x y cur_x ctx (b :: rest) =
        labelLoop x y cur_x ctx ((b :: rest).drop n)) ∧
    (cur_x < (ctx.width : Int) → cp ≥ 32 → tui_char_width cp = 1 →
      labelLoop x y cur_x ctx (b :: rest) =
        labelLoop x y (cur_x + 1) (setCell ctx cur_x y cp)
          ((b :: rest).drop n)) ∧
    (cur_x < (ctx.width : Int) → cp ≥ 32 → tui_char_width cp = 2 →
      cur_x + 1 < (ctx.width : Int) →
      labelLoop x y cur_x ctx (b :: rest) =
        labelLoop x y (cur_x + 2) (setCellWide ctx cur_x y cp)
          ((b :: rest).drop n)) ∧
    (cur_x < (ctx.width : Int) → cp ≥ 32 → tui_char_width cp = 2 →
      ¬ cur_x + 1 < (ctx.width : Int) →
      labelLoop x y cur_x ctx (b :: rest) =
        labelLoop x y (cur_x + 1) ctx ((b :: rest).drop n)) := by
  have h1 : (tui_utf8_decode (b :: rest)).1 = cp := by rw [hd]
  have h2 : (tui_utf8_decode (b :: rest)).2 = n := by rw [hd]
  refine ⟨?_, ?_, ?_, ?_, ?_, ?_⟩
  · intro hw
    rw [labelLoop, if_neg hw]
  · intro hw hnl
    rw [labelLoop, if_pos hw]
    simp only [hd]
    rw [if_pos hnl]
  · intro hw hge h0
    have hnl : ¬ cp = 10 := by omega
    rw [labelLoop, if_pos hw]
    simp only [hd]
    rw [if_neg hnl, if_pos hge, if_neg (by omega), if_neg (by omega)]
  · intro hw hge hw1
    have hnl : ¬ cp = 10 := by omega
    rw [labelLoop, if_pos hw]
    simp only [hd]
    rw [if_neg hnl, if_pos hge, if_neg (by omega), if_pos hw1]
  · intro hw hge hw2 hfit
    have hnl : ¬ cp = 10 := by omega
    rw [labelLoop, if_pos hw]
    simp only [hd]
    rw [if_neg hnl, if_pos hge, if_pos hw2, if_pos hfit]
  · intro hw hge hw2 hfit
    have hnl : ¬ cp = 10 := by omega
    rw [labelLoop, if_pos hw]
    simp only [hd]
    rw [if_neg hnl, if_pos hge, if_pos hw2, if_neg hfit]

/-- Witness for `label_decodes_left_to_right`: the wide code point
U+4E2D at column `W - 1` of a 2-wide screen writes no cell. -/
theorem label_decodes_left_to_right_witness :
    labelLoop 1 0 1 { idleCtx with width := 2 }
        (tui_utf8_encode 0x4E2D) =
      labelLoop 1 0 2 { idleCtx with width := 2 } [] :=
  (label_decodes_left_to_right { idleCtx with width := 2 } 1 0 1
      0xE4 [0xB8, 0xAD] 0x4E2D 3 (by decide)).2.2.2.2.2
    (by decide) (by decide) (by decide) (by decide)

/-- The label loop on an exhausted string does nothing. -/
theorem labelLoop_nil (x y cur_x : Int) (ctx : Context) :
    labelLoop x y cur_x ctx [] = ctx := by
  rw [labelLoop]

/-- The 2×2 context of the C7 counterexample. -/
def labelCtx : Context :=
  { width := 2, height := 2, term_w := 2, term_h := 2, in_frame := true }

/-- The result of `tui_label(0, 0, "ab\nc")` on the 2×2 context. -/
def labelCtxResult : Context := label labelCtx 0 0 (strBytes "ab\nc")

/-- C7 counterexample: the claim says every `\n` moves drawing to
`(x, y+1)`, but once the column has reached the right edge the loop stops
outright: after `label(0,0,"ab\nc")` on a 2-column screen, row 1 is
untouched — the `\n` was never processed and `c` was never drawn, while
`a` and `b` were written on row 0. -/
theorem label_newline_after_edge_dropped :
    labelCtxResult.back (1 * TUI_MAX_WIDTH + 0) = tui_make_empty_cell ∧
    (labelCtxResult.back (1 * TUI_MAX_WIDTH + 0)).codepoint ≠ 99 ∧
    (labelCtxResult.back 0).codepoint = 97 ∧
    (labelCtxResult.back 1).codepoint = 98 := by
  have hs : strBytes "ab\nc" = [97, 98, 10, 99] := by decide
  have h : labelCtxResult = setCell (setCell labelCtx 0 0 97) 1 0 98 := by
    show label labelCtx 0 0 (strBytes "ab\nc") = _
    rw [label, if_neg (by decide), hs]
    rw [labelLoop]
    norm_num [tui_utf8_decode, tui_char_width, labelCtx]
    rw [labelLoop]
    norm_num [tui_utf8_decode, tui_char_width, labelCtx, setCell]
    rw [labelLoop]
    norm_num [labelCtx, setCell, updateBuf, TUI_MAX_WIDTH]
  rw [h]
  refine ⟨by decide, by decide, by decide, by decide⟩

/-! ## Events and the input decoder (src/tui.h lines 36-102, 1356-1725)

The decoder is a pull parser over the input queue.  One call to
`tui_parse_escape_sequence` either returns an event and consumes its
bytes, consumes a single malformed byte without an event, or — when a
sequence is not yet complete — returns "no event" consuming nothing.
`σ` is the list of readable bytes, oldest first; `σ.getD i 0` is
`tui_input_peek(ctx, i)` and `σ.length` is `tui_input_available(ctx)`. -/

inductive EventType where
  | NONE | KEY | MOUSE | RESIZE | PASTE_START | PASTE_END
  | FOCUS_IN | FOCUS_OUT
deriving DecidableEq, Repr

inductive Key where
  | NONE | UP | DOWN | LEFT | RIGHT | ENTER | ESC | BACKSPACE | TAB
  | SPACE | CHAR | HOME | END | PAGEUP | PAGEDOWN | INSERT | DELETE
  | F1 | F2 | F3 | F4 | F5 | F6 | F7 | F8 | F9 | F10 | F11 | F12
deriving DecidableEq, Repr

inductive MouseButton where
  | NONE | LEFT | MIDDLE | RIGHT | RELEASE | WHEEL_UP | WHEEL_DOWN | MOVE
deriving DecidableEq, Repr

/-- `tui_event`; the defaults are the zero-initialisation the decoder and
`tui_poll_event` perform before filling an event in. -/
structure Event where
  type : EventType := .NONE
  key : Key := .NONE
  ch : Nat := 0
  mouse_button : MouseButton := .NONE
  mouse_x : Int := 0
  mouse_y : Int := 0
  new_width : Int := 0
  new_height : Int := 0
  ctrl : Bool := false
  alt : Bool := false
  shift : Bool := false
deriving DecidableEq, Repr

/-- One decoder call: no event and nothing consumed (sequence not yet
complete), or `n ≥ 1` bytes consumed producing an event — or none, for a
dropped malformed byte. -/
inductive ParseResult where
  | incomplete
  | consumed (e : Option Event) (n : Nat)
deriving DecidableEq, Repr

/-- The capped parameter store of `tui_parse_csi_params`
(`max_params = 4`; further parameters are dropped). -/
def pushParam (params : List Nat) (v : Nat) : List Nat :=
  if params.length < 4 then params ++ [v] else params

/-- The scan loop of `tui_parse_csi_params`: digits accumulate the current
parameter, `;` pushes it, a final byte in `0x40..0x7E` ends the sequence,
private-mode indicators `< > ? =` are skipped, anything else is invalid;
the scan window is capped at 32 bytes.  Returns
`(params, end_pos, final_char)`, or `none` for `end_pos = -1`. -/
def csiScan (σ : List Nat) (i cur : Nat) (hasDigit : Bool)
    (params : List Nat) : Option (List Nat × Nat × Nat) :=
  if i < σ.length ∧ i < 32 then
    let c := σ.getD i 0
    if 48 ≤ c ∧ c ≤ 57 then
      csiScan σ (i + 1) (cur * 10 + (c - 48)) true params
    else if c = 59 then
      csiScan σ (i + 1) 0 false
        (pushParam params (if hasDigit then cur else 0))
    else if 0x40 ≤ c ∧ c ≤ 0x7E then
      some (pushParam params (if hasDigit then cur else 0), i, c)
    else if c = 60 ∨ c = 62 ∨ c = 63 ∨ c = 61 then
      csiScan σ (i + 1) cur hasDigit params
    else none
  else none
  termination_by 32 - i
  decreasing_by all_goals omega

/-- `tui_parse_csi_params` starting at byte offset `start`. -/
def tui_parse_csi_params (σ : List Nat) (start : Nat) :
    Option (List Nat × Nat × Nat) :=
  csiScan σ start 0 false []

/-- `tui_decode_modifiers`: `modifier = 1 + shift + 2·alt + 4·ctrl`. -/
def tui_decode_modifiers (modifier_param : Nat) : Bool × Bool × Bool :=
  let bits := modifier_param - 1
  (bits &&& 1 ≠ 0, bits &&& 2 ≠ 0, bits &&& 4 ≠ 0)

/-- The arrow/home/end final-byte switch (used both for the simple CSI
arrows and for the modifier form `ESC [ 1 ; m X`). -/
def arrowKeyOf (b : Nat) : Key :=
  if b = 65 then .UP
  else if b = 66 then .DOWN
  else if b = 67 then .RIGHT
  else if b = 68 then .LEFT
  else if b = 72 then .HOME
  else if b = 70 then .END
  else .NONE

/-- The `ESC [ P ~` function/editing-key table. -/
def tildeKeyOf (p : Nat) : Key :=
  if p = 1 then .HOME
  else if p = 2 then .INSERT
  else if p = 3 then .DELETE
  else if p = 4 then .END
  else if p = 5 then .PAGEUP
  else if p = 6 then .PAGEDOWN
  else if p = 11 then .F1
  else if p = 12 then .F2
  else if p = 13 then .F3
  else if p = 14 then .F4
  else if p = 15 then .F5
  else if p = 17 then .F6
  else if p = 18 then .F7
  else if p = 19 then .F8
  else if p = 20 then .F9
  else if p = 21 then .F10
  else if p = 23 then .F11
  else if p = 24 then .F12
  else .NONE

/-- The SS3 (`ESC O x`) final-byte switch. -/
def ss3KeyOf (b : Nat) : Key :=
  if b = 65 then .UP
  else if b = 66 then .DOWN
  else if b = 67 then .RIGHT
  else if b = 68 then .LEFT
  else if b = 72 then .HOME
  else if b = 70 then .END
  else if b = 80 then .F1
  else if b = 81 then .F2
  else if b = 82 then .F3
  else if b = 83 then .F4
  else .NONE

/-- The SGR mouse button decoding: a final `m` is a release; otherwise
the switch on `button_code & 0x43` with bit 32 meaning motion in the
default case. -/
def mouseButtonOf (final button_code : Nat) : MouseButton :=
  if final = 109 then .RELEASE
  else if button_code &&& 0x43 = 0 then .LEFT
  else if button_code &&& 0x43 = 1 then .MIDDLE
  else if button_code &&& 0x43 = 2 then .RIGHT
  else if button_code &&& 0x43 = 3 then .RELEASE
  else if button_code &&& 0x43 = 64 then .WHEEL_UP
  else if button_code &&& 0x43 = 65 then .WHEEL_DOWN
  else if button_code &&& 32 ≠ 0 then .MOVE
  else .NONE

/-- "Extended CSI sequences with parameters" (src/tui.h lines 1550-1609):
the fall-through tail of the CSI branch, scanning parameters from byte
offset 2. -/
def extendedCsi (σ : List Nat) : ParseResult :=
  match tui_parse_csi_params σ 2 with
  | none => .incomplete
  | some (params, end_pos, final) =>
    let mods :=
      if params.length ≥ 2 ∧ params.getD 1 0 > 1 then
        tui_decode_modifiers (params.getD 1 0)
      else (false, false, false)
    let e : Event :=
      { type := .KEY, shift := mods.1, alt := mods.2.1, ctrl := mods.2.2 }
    if params.length ≥ 2 ∧ params.getD 0 0 = 1 ∧ arrowKeyOf final ≠ .NONE
    then
      .consumed (some { e with key := arrowKeyOf final }) (end_pos + 1)
    else if final = 126 ∧ params.length ≥ 1 then
      .consumed (some { e with key := tildeKeyOf (params.getD 0 0) })
        (end_pos + 1)
    else
      .consumed (some { e with key := .NONE }) (end_pos + 1)

/-- The SGR-mouse branch (`ESC [ <`, src/tui.h lines 1474-1514); when the
scanned sequence is not a well-formed mouse report the source falls
through to the extended-CSI handling. -/
def parseMouse (σ : List Nat) : ParseResult :=
  match tui_parse_csi_params σ 3 with
  | none => .incomplete
  | some (params, end_pos, final) =>
    if (final = 77 ∨ final = 109) ∧ params.length ≥ 3 then
      .consumed (some
        { type := .MOUSE,
          mouse_x := (params.getD 1 0 : Int) - 1,
          mouse_y := (params.getD 2 0 : Int) - 1,
          mouse_button := mouseButtonOf final (params.getD 0 0) })
        (end_pos + 1)
    else extendedCsi σ

/-- The CSI branch (`ESC [`): focus events, bracketed-paste markers,
SGR mouse, plain arrows, then extended sequences. -/
def parseCsi (σ : List Nat) : ParseResult :=
  if σ.length < 3 then .incomplete
  else
    let b2 := σ.getD 2 0
    if b2 = 73 then .consumed (some { type := .FOCUS_IN }) 3
    else if b2 = 79 then .consumed (some { type := .FOCUS_OUT }) 3
    else if b2 = 50 ∧ σ.length ≥ 6 ∧ σ.getD 3 0 = 48 ∧ σ.getD 5 0 = 126 ∧
        σ.getD 4 0 = 48 then
      .consumed (some { type := .PASTE_START }) 6
    else if b2 = 50 ∧ σ.length ≥ 6 ∧ σ.getD 3 0 = 48 ∧ σ.getD 5 0 = 126 ∧
        σ.getD 4 0 = 49 then
      .consumed (some { type := .PASTE_END }) 6
    else if b2 = 60 then parseMouse σ
    else if arrowKeyOf b2 ≠ .NONE then
      .consumed (some { type := .KEY, key := arrowKeyOf b2 }) 3
    else extendedCsi σ

/-- The SS3 branch (`ESC O`). -/
def parseSS3 (σ : List Nat) : ParseResult :=
  if σ.length < 3 then .incomplete
  else .consumed (some { type := .KEY, key := ss3KeyOf (σ.getD 2 0) }) 3

/-- The escape branch: CSI, SS3, or — as soon as a second byte proves the
ESC stands alone — the ESC key. -/
def parseEsc (σ : List Nat) : ParseResult :=
  if σ.length < 2 then .incomplete
  else if σ.getD 1 0 = 91 then parseCsi σ
  else if σ.getD 1 0 = 79 then parseSS3 σ
  else .consumed (some { type := .KEY, key := .ESC }) 1

/-- The regular-character tail: UTF-8 length classification; an invalid
lead byte is dropped (consumed with no event); a truncated sequence waits
for more bytes. -/
def parseChar (σ : List Nat) : ParseResult :=
  let b0 := σ.getD 0 0
  let len : Nat :=
    if b0 &&& 0x80 = 0 then 1
    else if b0 &&& 0xE0 = 0xC0 then 2
    else if b0 &&& 0xF0 = 0xE0 then 3
    else if b0 &&& 0xF8 = 0xF0 then 4
    else 0
  if len = 0 then .consumed none 1
  else if σ.length < len then .incomplete
  else
    let e : Event :=
      { type := .KEY, key := .CHAR, ch := (tui_utf8_decode (σ.take len)).1 }
    .consumed (some e) len

/-- `tui_parse_escape_sequence` (src/tui.h lines 1408-1725) over the
readable bytes of the input queue. -/
def tui_parse_escape_sequence (σ : List Nat) : ParseResult :=
  if σ.length < 1 then .incomplete
  else
    let b0 := σ.getD 0 0
    if b0 = 0x1B then parseEsc σ
    else if b0 = 13 ∨ b0 = 10 then
      .consumed (some { type := .KEY, key := .ENTER }) 1
    else if b0 = 0x7F ∨ b0 = 8 then
      .consumed (some { type := .KEY, key := .BACKSPACE }) 1
    else if b0 = 9 then
      .consumed (some { type := .KEY, key := .TAB, ch := 9 }) 1
    else if b0 = 32 then
      .consumed (some { type := .KEY, key := .SPACE, ch := 32 }) 1
    else if b0 = 0 then
      let e : Event := { type := .KEY, key := .SPACE, ch := 32, ctrl := true }
      .consumed (some e) 1
    else if 1 ≤ b0 ∧ b0 ≤ 26 ∧ b0 ≠ 9 ∧ b0 ≠ 13 ∧ b0 ≠ 10 then
      let e : Event :=
        { type := .KEY, key := .CHAR, ch := 97 + (b0 - 1), ctrl := true }
      .consumed (some e) 1
    else parseChar σ

/-- Poll the decoder repeatedly on a fixed byte queue, collecting the
events it produces until it reports "no event and nothing consumed";
returns the events and the leftover bytes.  `fuel ≥ σ.length` always
suffices because every productive call consumes at least one byte. -/
def pollAll : Nat → List Nat → List Event × List Nat
  | 0, σ => ([], σ)
  | fuel + 1, σ =>
    match tui_parse_escape_sequence σ with
    | .incomplete => ([], σ)
    | .consumed e n =>
      let r := pollAll fuel (σ.drop n)
      (e.toList ++ r.1, r.2)

/-- Feed one byte into the pending queue, then poll to exhaustion. -/
def feedOne (st : List Event × List Nat) (b : Nat) :
    List Event × List Nat :=
  let σ := st.2 ++ [b]
  let r := pollAll σ.length σ
  (st.1 ++ r.1, r.2)

/-- Feed a byte stream one byte at a time, polling after each byte. -/
def feedAll (bytes : List Nat) : List Event × List Nat :=
  bytes.foldl feedOne ([], [])

/-! ### The decoder is incremental: stability of consumed results under
extension of the byte queue -/

theorem csiScan_bounds (σ : List Nat) (i cur : Nat) (hd : Bool)
    (ps : List Nat) :
    ∀ params end_pos fc,
      csiScan σ i cur hd ps = some (params, end_pos, fc) →
      i ≤ end_pos ∧ end_pos < σ.length ∧ end_pos < 32 ∧
        fc = σ.getD end_pos 0 ∧ 64 ≤ fc ∧ fc ≤ 126 := by
  induction i, cur, hd, ps using csiScan.induct (σ := σ)
  case case1 i cur hd ps h c hdig ih =>
    intro params end_pos fc hr
    rw [csiScan, if_pos h, if_pos hdig] at hr
    obtain ⟨h1, h2, h3, h4, h5, h6⟩ := ih params end_pos fc hr
    exact ⟨by omega, h2, h3, h4, h5, h6⟩
  case case2 i cur hd ps h c hdig hsemi ih =>
    intro params end_pos fc hr
    rw [csiScan, if_pos h, if_neg hdig, if_pos hsemi] at hr
    obtain ⟨h1, h2, h3, h4, h5, h6⟩ := ih params end_pos fc hr
    exact ⟨by omega, h2, h3, h4, h5, h6⟩
  case case3 i cur hd ps h c hdig hsemi hfin =>
    intro params end_pos fc hr
    rw [csiScan, if_pos h, if_neg hdig, if_neg hsemi, if_pos hfin] at hr
    cases hr
    exact ⟨le_refl i, h.1, h.2, rfl, hfin.1, hfin.2⟩
  case case4 i cur hd ps h c hdig hsemi hfin hpriv ih =>
    intro params end_pos fc hr
    rw [csiScan, if_pos h, if_neg hdig, if_neg hsemi, if_neg hfin,
      if_pos hpriv] at hr
    obtain ⟨h1, h2, h3, h4, h5, h6⟩ := ih params end_pos fc hr
    exact ⟨by omega, h2, h3, h4, h5, h6⟩
  case case5 i cur hd ps h c hdig hsemi hfin hpriv =>
    intro params end_pos fc hr
    rw [csiScan, if_pos h, if_neg hdig, if_neg hsemi, if_neg hfin,
      if_neg hpriv] at hr
    cases hr
  case case6 i cur hd ps h =>
    intro params end_pos fc hr
    rw [csiScan, if_neg h] at hr
    cases hr

theorem csiScan_stable (σ τ : List Nat) (i cur : Nat) (hd : Bool)
    (ps : List Nat) :
    ∀ r, csiScan σ i cur hd ps = some r →
      csiScan (σ ++ τ) i cur hd ps = some r := by
  induction i, cur, hd, ps using csiScan.induct (σ := σ)
  case case1 i cur hd ps h c hdig ih =>
    intro r hr
    rw [csiScan, if_pos h, if_pos hdig] at hr
    have h2 : i < (σ ++ τ).length ∧ i < 32 := by
      rw [List.length_append]; omega
    have hc : (σ ++ τ).getD i 0 = σ.getD i 0 := List.getD_append _ _ _ _ h.1
    rw [csiScan, if_pos h2, hc, if_pos hdig]
    exact ih r hr
  case case2 i cur hd ps h c hdig hsemi ih =>
    intro r hr
    rw [csiScan, if_pos h, if_neg hdig, if_pos hsemi] at hr
    have h2 : i < (σ ++ τ).length ∧ i < 32 := by
      rw [List.length_append]; omega
    have hc : (σ ++ τ).getD i 0 = σ.getD i 0 := List.getD_append _ _ _ _ h.1
    rw [csiScan, if_pos h2, hc, if_neg hdig, if_pos hsemi]
    exact ih r hr
  case case3 i cur hd ps h c hdig hsemi hfin =>
    intro r hr
    rw [csiScan, if_pos h, if_neg hdig, if_neg hsemi, if_pos hfin] at hr
    have h2 : i < (σ ++ τ).length ∧ i < 32 := by
      rw [List.length_append]; omega
    have hc : (σ ++ τ).getD i 0 = σ.getD i 0 := List.getD_append _ _ _ _ h.1
    rw [csiScan, if_pos h2, hc, if_neg hdig, if_neg hsemi, if_pos hfin]
    exact hr
  case case4 i cur hd ps h c hdig hsemi hfin hpriv ih =>
    intro r hr
    rw [csiScan, if_pos h, if_neg hdig, if_neg hsemi, if_neg hfin,
      if_pos hpriv] at hr
    have h2 : i < (σ ++ τ).length ∧ i < 32 := by
      rw [List.length_append]; omega
    have hc : (σ ++ τ).getD i 0 = σ.getD i 0 := List.getD_append _ _ _ _ h.1
    rw [csiScan, if_pos h2, hc, if_neg hdig, if_neg hsemi, if_neg hfin,
      if_pos hpriv]
    exact ih r hr
  case case5 i cur hd ps h c hdig hsemi hfin hpriv =>
    intro r hr
    rw [csiScan, if_pos h, if_neg hdig, if_neg hsemi, if_neg hfin,
      if_neg hpriv] at hr
    cases hr
  case case6 i cur hd ps h =>
    intro r hr
    rw [csiScan, if_neg h] at hr
    cases hr

end Tui

namespace Tui

theorem tui_parse_csi_params_stable (σ τ : List Nat) (s : Nat)
    (r : List Nat × Nat × Nat) (h : tui_parse_csi_params σ s = some r) :
    tui_parse_csi_params (σ ++ τ) s = some r :=
  csiScan_stable σ τ s 0 false [] r h

theorem tui_parse_csi_params_bounds (σ : List Nat) (s : Nat)
    (params : List Nat) (end_pos fc : Nat)
    (h : tui_parse_csi_params σ s = some (params, end_pos, fc)) :
    s ≤ end_pos ∧ end_pos < σ.length ∧ end_pos < 32 ∧
      fc = σ.getD end_pos 0 ∧ 64 ≤ fc ∧ fc ≤ 126 :=
  csiScan_bounds σ s 0 false [] params end_pos fc h

theorem extendedCsi_bounds (σ : List Nat) (e : Option Event) (n : Nat)
    (h : extendedCsi σ = .consumed e n) : 1 ≤ n ∧ n ≤ σ.length := by
  unfold extendedCsi at h
  cases hs : tui_parse_csi_params σ 2 with
  | none => rw [hs] at h; simp at h
  | some r =>
    obtain ⟨params, end_pos, fc⟩ := r
    rw [hs] at h
    obtain ⟨hb1, hb2, _, _, _, _⟩ :=
      tui_parse_csi_params_bounds σ 2 params end_pos fc hs
    simp only [] at h
    split_ifs at h <;> (cases h; exact ⟨by omega, by omega⟩)

theorem extendedCsi_stable (σ τ : List Nat) (e : Option Event) (n : Nat)
    (h : extendedCsi σ = .consumed e n) :
    extendedCsi (σ ++ τ) = .consumed e n := by
  unfold extendedCsi at h ⊢
  cases hs : tui_parse_csi_params σ 2 with
  | none => rw [hs] at h; simp at h
  | some r =>
    rw [hs] at h
    rw [tui_parse_csi_params_stable σ τ 2 r hs]
    exact h

theorem parseMouse_bounds (σ : List Nat) (e : Option Event) (n : Nat)
    (h : parseMouse σ = .consumed e n) : 1 ≤ n ∧ n ≤ σ.length := by
  unfold parseMouse at h
  cases hs : tui_parse_csi_params σ 3 with
  | none => rw [hs] at h; simp at h
  | some r =>
    obtain ⟨params, end_pos, fc⟩ := r
    rw [hs] at h
    obtain ⟨hb1, hb2, _, _, _, _⟩ :=
      tui_parse_csi_params_bounds σ 3 params end_pos fc hs
    simp only [] at h
    split_ifs at h
    · cases h; exact ⟨by omega, by omega⟩
    · exact extendedCsi_bounds σ e n h

theorem parseMouse_stable (σ τ : List Nat) (e : Option Event) (n : Nat)
    (h : parseMouse σ = .consumed e n) :
    parseMouse (σ ++ τ) = .consumed e n := by
  unfold parseMouse at h ⊢
  cases hs : tui_parse_csi_params σ 3 with
  | none => rw [hs] at h; simp at h
  | some r =>
    obtain ⟨params, end_pos, fc⟩ := r
    rw [hs] at h
    rw [tui_parse_csi_params_stable σ τ 3 _ hs]
    simp only [] at h ⊢
    split_ifs at h ⊢ with hc
    · exact h
    · exact extendedCsi_stable σ τ e n h

theorem scan_blocks_paste (σ τ : List Nat) (params : List Nat)
    (end_pos fc : Nat)
    (hb : σ.getD 2 0 = 50) (hlen : σ.length < 6)
    (hs : tui_parse_csi_params σ 2 = some (params, end_pos, fc)) :
    (σ ++ τ).getD 3 0 ≠ 48 ∨
      ((σ ++ τ).getD 4 0 ≠ 48 ∧ (σ ++ τ).getD 4 0 ≠ 49) := by
  obtain ⟨h1, h2, _, h4, h5, h6⟩ :=
    tui_parse_csi_params_bounds σ 2 params end_pos fc hs
  have hcase : end_pos = 2 ∨ end_pos = 3 ∨ end_pos = 4 := by omega
  rcases hcase with hc | hc | hc
  · subst hc; rw [hb] at h4; omega
  · subst hc
    left
    rw [List.getD_append _ _ _ _ (by omega)]
    omega
  · subst hc
    right
    rw [List.getD_append _ _ _ _ (by omega)]
    omega


theorem parseCsi_bounds (σ : List Nat) (e : Option Event) (n : Nat)
    (h : parseCsi σ = .consumed e n) : 1 ≤ n ∧ n ≤ σ.length := by
  simp only [parseCsi] at h
  split_ifs at h <;>
    first
      | exact ParseResult.noConfusion h
      | exact parseMouse_bounds σ e n h
      | exact extendedCsi_bounds σ e n h
      | (cases h; omega)

theorem parseSS3_bounds (σ : List Nat) (e : Option Event) (n : Nat)
    (h : parseSS3 σ = .consumed e n) : 1 ≤ n ∧ n ≤ σ.length := by
  unfold parseSS3 at h
  split_ifs at h <;>
    first
      | exact ParseResult.noConfusion h
      | (cases h; omega)

theorem parseEsc_bounds (σ : List Nat) (e : Option Event) (n : Nat)
    (h : parseEsc σ = .consumed e n) : 1 ≤ n ∧ n ≤ σ.length := by
  unfold parseEsc at h
  split_ifs at h <;>
    first
      | exact ParseResult.noConfusion h
      | exact parseCsi_bounds σ e n h
      | exact parseSS3_bounds σ e n h
      | (cases h; omega)

theorem parseChar_bounds (σ : List Nat) (e : Option Event) (n : Nat)
    (h : parseChar σ = .consumed e n) : 1 ≤ n ∧ n ≤ σ.length := by
  simp only [parseChar] at h
  by_cases k1 : σ.getD 0 0 &&& 0x80 = 0
  · rw [if_pos k1] at h
    norm_num at h
    split_ifs at h <;>
      first
        | exact ParseResult.noConfusion h
        | (cases h; omega)
        | (cases h;
           exact ⟨le_refl _, List.length_pos.mpr (by assumption)⟩)
  rw [if_neg k1] at h
  by_cases k2 : σ.getD 0 0 &&& 0xE0 = 0xC0
  · rw [if_pos k2] at h
    norm_num at h
    split_ifs at h <;>
      first
        | exact ParseResult.noConfusion h
        | (cases h; omega)
  rw [if_neg k2] at h
  by_cases k3 : σ.getD 0 0 &&& 0xF0 = 0xE0
  · rw [if_pos k3] at h
    norm_num at h
    split_ifs at h <;>
      first
        | exact ParseResult.noConfusion h
        | (cases h; omega)
  rw [if_neg k3] at h
  by_cases k4 : σ.getD 0 0 &&& 0xF8 = 0xF0
  · rw [if_pos k4] at h
    norm_num at h
    split_ifs at h <;>
      first
        | exact ParseResult.noConfusion h
        | (cases h; omega)
  rw [if_neg k4] at h
  norm_num at h
  cases h
  cases σ with
  | nil => simp at k1
  | cons a t => simp_all

theorem parse_bounds (σ : List Nat) (e : Option Event) (n : Nat)
    (h : tui_parse_escape_sequence σ = .consumed e n) :
    1 ≤ n ∧ n ≤ σ.length := by
  simp only [tui_parse_escape_sequence] at h
  split_ifs at h <;>
    first
      | exact ParseResult.noConfusion h
      | exact parseEsc_bounds σ e n h
      | exact parseChar_bounds σ e n h
      | (cases h; omega)


theorem parseSS3_stable (σ τ : List Nat) (e : Option Event) (n : Nat)
    (h : parseSS3 σ = .consumed e n) :
    parseSS3 (σ ++ τ) = .consumed e n := by
  unfold parseSS3 at h ⊢
  by_cases h3 : σ.length < 3
  · rw [if_pos h3] at h
    exact ParseResult.noConfusion h
  · rw [if_neg h3] at h
    rw [if_neg (show ¬(σ ++ τ).length < 3 by rw [List.length_append]; omega)]
    rw [List.getD_append _ _ _ _ (by omega)]
    exact h

theorem parseCsi_stable (σ τ : List Nat) (e : Option Event) (n : Nat)
    (h : parseCsi σ = .consumed e n) :
    parseCsi (σ ++ τ) = .consumed e n := by
  simp only [parseCsi] at h ⊢
  by_cases h3 : σ.length < 3
  · rw [if_pos h3] at h
    exact ParseResult.noConfusion h
  rw [if_neg h3] at h
  rw [if_neg (show ¬(σ ++ τ).length < 3 by rw [List.length_append]; omega)]
  have g2 : (σ ++ τ).getD 2 0 = σ.getD 2 0 :=
    List.getD_append _ _ _ _ (by omega)
  rw [g2]
  by_cases c1 : σ.getD 2 0 = 73
  · rw [if_pos c1] at h ⊢; exact h
  rw [if_neg c1] at h ⊢
  by_cases c2 : σ.getD 2 0 = 79
  · rw [if_pos c2] at h ⊢; exact h
  rw [if_neg c2] at h ⊢
  by_cases c6 : σ.length ≥ 6
  · -- all paste reads lie inside σ, so both paste conditions are stable
    have g3 : (σ ++ τ).getD 3 0 = σ.getD 3 0 :=
      List.getD_append _ _ _ _ (by omega)
    have g4 : (σ ++ τ).getD 4 0 = σ.getD 4 0 :=
      List.getD_append _ _ _ _ (by omega)
    have g5 : (σ ++ τ).getD 5 0 = σ.getD 5 0 :=
      List.getD_append _ _ _ _ (by omega)
    have glen : (σ ++ τ).length ≥ 6 := by rw [List.length_append]; omega
    by_cases c3 : σ.getD 2 0 = 50 ∧ σ.length ≥ 6 ∧ σ.getD 3 0 = 48 ∧
        σ.getD 5 0 = 126 ∧ σ.getD 4 0 = 48
    · rw [if_pos c3] at h
      rw [if_pos (by rw [g3, g4, g5]; exact ⟨c3.1, glen, c3.2.2⟩)]
      exact h
    · rw [if_neg c3] at h
      rw [if_neg (by rw [g3, g4, g5]; intro hx; exact c3 ⟨hx.1, c6, hx.2.2⟩)]
      by_cases c4 : σ.getD 2 0 = 50 ∧ σ.length ≥ 6 ∧ σ.getD 3 0 = 48 ∧
          σ.getD 5 0 = 126 ∧ σ.getD 4 0 = 49
      · rw [if_pos c4] at h
        rw [if_pos (by rw [g3, g4, g5]; exact ⟨c4.1, glen, c4.2.2⟩)]
        exact h
      · rw [if_neg c4] at h
        rw [if_neg (by rw [g3, g4, g5]; intro hx; exact c4 ⟨hx.1, c6, hx.2.2⟩)]
        by_cases c5 : σ.getD 2 0 = 60
        · rw [if_pos c5] at h ⊢
          exact parseMouse_stable σ τ e n h
        · rw [if_neg c5] at h ⊢
          by_cases c7 : arrowKeyOf (σ.getD 2 0) ≠ Key.NONE
          · rw [if_pos c7] at h ⊢; exact h
          · rw [if_neg c7] at h ⊢
            exact extendedCsi_stable σ τ e n h
  · -- σ.length < 6: both paste branches are false in σ, and the scan
    -- that produced the consumed result pins a final byte at offset 3
    -- or 4, so they stay false in σ ++ τ
    have hc3 : ¬ (σ.getD 2 0 = 50 ∧ σ.length ≥ 6 ∧ σ.getD 3 0 = 48 ∧
        σ.getD 5 0 = 126 ∧ σ.getD 4 0 = 48) := by
      intro hx; exact c6 hx.2.1
    have hc4 : ¬ (σ.getD 2 0 = 50 ∧ σ.length ≥ 6 ∧ σ.getD 3 0 = 48 ∧
        σ.getD 5 0 = 126 ∧ σ.getD 4 0 = 49) := by
      intro hx; exact c6 hx.2.1
    rw [if_neg hc3, if_neg hc4] at h
    by_cases cb : σ.getD 2 0 = 50
    · -- the fall-through must have gone to extendedCsi (50 is neither
      -- '<' nor an arrow final)
      have hne60 : ¬ σ.getD 2 0 = 60 := by rw [cb]; decide
      have hnarrow : ¬ arrowKeyOf (σ.getD 2 0) ≠ Key.NONE := by
        rw [cb]; decide
      rw [if_neg hne60, if_neg hnarrow] at h
      -- a consumed extendedCsi means the parameter scan from offset 2
      -- succeeded
      have hscan : ∃ r, tui_parse_csi_params σ 2 = some r := by
        by_contra hx
        push_neg at hx
        unfold extendedCsi at h
        cases hs : tui_parse_csi_params σ 2 with
        | none => rw [hs] at h; exact ParseResult.noConfusion h
        | some r => exact absurd rfl ((hs ▸ hx) r)
      obtain ⟨⟨params, end_pos, fc⟩, hs⟩ := hscan
      have hblock := scan_blocks_paste σ τ params end_pos fc cb
        (by omega) hs
      have hc3t : ¬ (σ.getD 2 0 = 50 ∧ (σ ++ τ).length ≥ 6 ∧
          (σ ++ τ).getD 3 0 = 48 ∧ (σ ++ τ).getD 5 0 = 126 ∧
          (σ ++ τ).getD 4 0 = 48) := by
        intro hx
        rcases hblock with hb | hb
        · exact hb hx.2.2.1
        · exact hb.1 hx.2.2.2.2
      have hc4t : ¬ (σ.getD 2 0 = 50 ∧ (σ ++ τ).length ≥ 6 ∧
          (σ ++ τ).getD 3 0 = 48 ∧ (σ ++ τ).getD 5 0 = 126 ∧
          (σ ++ τ).getD 4 0 = 49) := by
        intro hx
        rcases hblock with hb | hb
        · exact hb hx.2.2.1
        · exact hb.2 hx.2.2.2.2
      rw [if_neg hc3t, if_neg hc4t, if_neg hne60, if_neg hnarrow]
      exact extendedCsi_stable σ τ e n h
    · -- σ.getD 2 0 ≠ 50: the paste conditions fail on their first
      -- conjunct in σ ++ τ as well
      have hc3t : ¬ (σ.getD 2 0 = 50 ∧ (σ ++ τ).length ≥ 6 ∧
          (σ ++ τ).getD 3 0 = 48 ∧ (σ ++ τ).getD 5 0 = 126 ∧
          (σ ++ τ).getD 4 0 = 48) := fun hx => cb hx.1
      have hc4t : ¬ (σ.getD 2 0 = 50 ∧ (σ ++ τ).length ≥ 6 ∧
          (σ ++ τ).getD 3 0 = 48 ∧ (σ ++ τ).getD 5 0 = 126 ∧
          (σ ++ τ).getD 4 0 = 49) := fun hx => cb hx.1
      rw [if_neg hc3t, if_neg hc4t]
      by_cases c5 : σ.getD 2 0 = 60
      · rw [if_pos c5] at h ⊢
        exact parseMouse_stable σ τ e n h
      · rw [if_neg c5] at h ⊢
        by_cases c7 : arrowKeyOf (σ.getD 2 0) ≠ Key.NONE
        · rw [if_pos c7] at h ⊢; exact h
        · rw [if_neg c7] at h ⊢
          exact extendedCsi_stable σ τ e n h


theorem parseEsc_stable (σ τ : List Nat) (e : Option Event) (n : Nat)
    (h : parseEsc σ = .consumed e n) :
    parseEsc (σ ++ τ) = .consumed e n := by
  unfold parseEsc at h ⊢
  by_cases h2 : σ.length < 2
  · rw [if_pos h2] at h
    exact ParseResult.noConfusion h
  rw [if_neg h2] at h
  rw [if_neg (show ¬(σ ++ τ).length < 2 by rw [List.length_append]; omega)]
  have g1 : (σ ++ τ).getD 1 0 = σ.getD 1 0 :=
    List.getD_append _ _ _ _ (by omega)
  rw [g1]
  by_cases c1 : σ.getD 1 0 = 91
  · rw [if_pos c1] at h ⊢
    exact parseCsi_stable σ τ e n h
  rw [if_neg c1] at h ⊢
  by_cases c2 : σ.getD 1 0 = 79
  · rw [if_pos c2] at h ⊢
    exact parseSS3_stable σ τ e n h
  · rw [if_neg c2] at h ⊢
    exact h

theorem parseChar_stable (σ τ : List Nat) (e : Option Event) (n : Nat)
    (h : parseChar σ = .consumed e n) :
    parseChar (σ ++ τ) = .consumed e n := by
  have hσ : 1 ≤ σ.length := (parseChar_bounds σ e n h).1.trans
    (parseChar_bounds σ e n h).2
  have g0 : (σ ++ τ).getD 0 0 = σ.getD 0 0 :=
    List.getD_append _ _ _ _ (by omega)
  simp only [parseChar] at h ⊢
  rw [g0]
  by_cases k1 : σ.getD 0 0 &&& 0x80 = 0
  · rw [if_pos k1] at h ⊢
    rw [if_neg (by decide)] at h ⊢
    by_cases hl : σ.length < 1
    · rw [if_pos hl] at h
      exact ParseResult.noConfusion h
    · rw [if_neg hl] at h
      rw [if_neg (show ¬(σ ++ τ).length < 1 by
        rw [List.length_append]; omega)]
      rw [List.take_append_of_le_length (by omega)]
      exact h
  rw [if_neg k1] at h ⊢
  by_cases k2 : σ.getD 0 0 &&& 0xE0 = 0xC0
  · rw [if_pos k2] at h ⊢
    rw [if_neg (by decide)] at h ⊢
    by_cases hl : σ.length < 2
    · rw [if_pos hl] at h
      exact ParseResult.noConfusion h
    · rw [if_neg hl] at h
      rw [if_neg (show ¬(σ ++ τ).length < 2 by
        rw [List.length_append]; omega)]
      rw [List.take_append_of_le_length (by omega)]
      exact h
  rw [if_neg k2] at h ⊢
  by_cases k3 : σ.getD 0 0 &&& 0xF0 = 0xE0
  · rw [if_pos k3] at h ⊢
    rw [if_neg (by decide)] at h ⊢
    by_cases hl : σ.length < 3
    · rw [if_pos hl] at h
      exact ParseResult.noConfusion h
    · rw [if_neg hl] at h
      rw [if_neg (show ¬(σ ++ τ).length < 3 by
        rw [List.length_append]; omega)]
      rw [List.take_append_of_le_length (by omega)]
      exact h
  rw [if_neg k3] at h ⊢
  by_cases k4 : σ.getD 0 0 &&& 0xF8 = 0xF0
  · rw [if_pos k4] at h ⊢
    rw [if_neg (by decide)] at h ⊢
    by_cases hl : σ.length < 4
    · rw [if_pos hl] at h
      exact ParseResult.noConfusion h
    · rw [if_neg hl] at h
      rw [if_neg (show ¬(σ ++ τ).length < 4 by
        rw [List.length_append]; omega)]
      rw [List.take_append_of_le_length (by omega)]
      exact h
  rw [if_neg k4] at h ⊢
  rw [if_pos rfl] at h ⊢
  exact h

theorem parse_stable (σ τ : List Nat) (e : Option Event) (n : Nat)
    (h : tui_parse_escape_sequence σ = .consumed e n) :
    tui_parse_escape_sequence (σ ++ τ) = .consumed e n := by
  have hσ : 1 ≤ σ.length := (parse_bounds σ e n h).1.trans
    (parse_bounds σ e n h).2
  have g0 : (σ ++ τ).getD 0 0 = σ.getD 0 0 :=
    List.getD_append _ _ _ _ (by omega)
  simp only [tui_parse_escape_sequence] at h ⊢
  rw [if_neg (show ¬σ.length < 1 by omega)] at h
  rw [if_neg (show ¬(σ ++ τ).length < 1 by rw [List.length_append]; omega)]
  rw [g0]
  by_cases c1 : σ.getD 0 0 = 27
  · rw [if_pos c1] at h ⊢
    exact parseEsc_stable σ τ e n h
  rw [if_neg c1] at h ⊢
  by_cases c2 : σ.getD 0 0 = 13 ∨ σ.getD 0 0 = 10
  · rw [if_pos c2] at h ⊢; exact h
  rw [if_neg c2] at h ⊢
  by_cases c3 : σ.getD 0 0 = 127 ∨ σ.getD 0 0 = 8
  · rw [if_pos c3] at h ⊢; exact h
  rw [if_neg c3] at h ⊢
  by_cases c4 : σ.getD 0 0 = 9
  · rw [if_pos c4] at h ⊢; exact h
  rw [if_neg c4] at h ⊢
  by_cases c5 : σ.getD 0 0 = 32
  · rw [if_pos c5] at h ⊢; exact h
  rw [if_neg c5] at h ⊢
  by_cases c6 : σ.getD 0 0 = 0
  · rw [if_pos c6] at h ⊢; exact h
  rw [if_neg c6] at h ⊢
  by_cases c7 : 1 ≤ σ.getD 0 0 ∧ σ.getD 0 0 ≤ 26 ∧ σ.getD 0 0 ≠ 9 ∧
      σ.getD 0 0 ≠ 13 ∧ σ.getD 0 0 ≠ 10
  · rw [if_pos c7] at h ⊢; exact h
  · rw [if_neg c7] at h ⊢
    exact parseChar_stable σ τ e n h


/-- Feeding the whole stream at once and polling repeatedly. -/
def oneShot (σ : List Nat) : List Event × List Nat :=
  pollAll σ.length σ

theorem pollAll_nil (fuel : Nat) : pollAll fuel [] = ([], []) := by
  cases fuel with
  | zero => rfl
  | succ f => rfl

theorem pollAll_incomplete (fuel : Nat) (σ : List Nat)
    (h : tui_parse_escape_sequence σ = .incomplete) :
    pollAll fuel σ = ([], σ) := by
  cases fuel with
  | zero => rfl
  | succ f => rw [pollAll, h]

theorem pollAll_step (fuel : Nat) (σ : List Nat) (e : Option Event)
    (n : Nat) (h : tui_parse_escape_sequence σ = .consumed e n) :
    pollAll (fuel + 1) σ =
      (e.toList ++ (pollAll fuel (σ.drop n)).1,
        (pollAll fuel (σ.drop n)).2) := by
  rw [pollAll, h]

theorem pollAll_congr (fuel : Nat) :
    ∀ (fuel2 : Nat) (σ : List Nat), σ.length ≤ fuel → σ.length ≤ fuel2 →
      pollAll fuel σ = pollAll fuel2 σ := by
  induction fuel with
  | zero =>
    intro fuel2 σ h h2
    have : σ = [] := List.length_eq_zero.mp (by omega)
    subst this
    rw [pollAll_nil, pollAll_nil]
  | succ f ih =>
    intro fuel2 σ h h2
    cases hp : tui_parse_escape_sequence σ with
    | incomplete => rw [pollAll_incomplete _ _ hp, pollAll_incomplete _ _ hp]
    | consumed e n =>
      have hb := parse_bounds σ e n hp
      obtain ⟨f2, rfl⟩ : ∃ k, fuel2 = k + 1 :=
        ⟨fuel2 - 1, by omega⟩
      rw [pollAll_step f σ e n hp, pollAll_step f2 σ e n hp]
      rw [ih f2 (σ.drop n) (by simp [List.length_drop]; omega)
        (by simp [List.length_drop]; omega)]


theorem oneShot_append (L : Nat) :
    ∀ (σ τ : List Nat), σ.length ≤ L →
      oneShot (σ ++ τ) =
        ((oneShot σ).1 ++ (oneShot ((oneShot σ).2 ++ τ)).1,
          (oneShot ((oneShot σ).2 ++ τ)).2) := by
  induction L with
  | zero =>
    intro σ τ h
    have : σ = [] := List.length_eq_zero.mp (by omega)
    subst this
    simp [oneShot, pollAll_nil]
  | succ L ih =>
    intro σ τ h
    cases hp : tui_parse_escape_sequence σ with
    | incomplete =>
      have h1 : oneShot σ = ([], σ) := pollAll_incomplete _ _ hp
      rw [h1]
      simp
    | consumed e n =>
      have hb := parse_bounds σ e n hp
      have hp2 : tui_parse_escape_sequence (σ ++ τ) = .consumed e n :=
        parse_stable σ τ e n hp
      have hlen : (σ ++ τ).length = σ.length + τ.length :=
        List.length_append σ τ
      obtain ⟨m, hm⟩ : ∃ m, σ.length = m + 1 := ⟨σ.length - 1, by omega⟩
      have e1 : oneShot (σ ++ τ) =
          (e.toList ++ (oneShot ((σ.drop n) ++ τ)).1,
            (oneShot ((σ.drop n) ++ τ)).2) := by
        obtain ⟨k, hk⟩ : ∃ k, (σ ++ τ).length = k + 1 := by
          rw [hlen]; exact ⟨σ.length + τ.length - 1, by omega⟩
        unfold oneShot
        rw [hk, pollAll_step k (σ ++ τ) e n hp2,
          List.drop_append_of_le_length (by omega)]
        rw [pollAll_congr k ((σ.drop n ++ τ).length) (σ.drop n ++ τ)
          (by simp [List.length_drop, List.length_append] at hk ⊢; omega)
          (le_refl _)]
      have e2 : oneShot σ =
          (e.toList ++ (oneShot (σ.drop n)).1, (oneShot (σ.drop n)).2) := by
        unfold oneShot
        rw [hm, pollAll_step m σ e n hp]
        rw [pollAll_congr m ((σ.drop n).length) (σ.drop n)
          (by simp [List.length_drop]; omega) (le_refl _)]
      have e3 := ih (σ.drop n) τ (by simp [List.length_drop]; omega)
      rw [e1, e2, e3]
      simp

theorem feedAll_eq_oneShot (σ : List Nat) : feedAll σ = oneShot σ := by
  induction σ using List.reverseRecOn with
  | nil => rfl
  | append_singleton ys b ih =>
    unfold feedAll at ih ⊢
    rw [List.foldl_append]
    simp only [List.foldl_cons, List.foldl_nil]
    rw [ih]
    unfold feedOne
    rw [oneShot_append ys.length ys [b] (le_refl _)]
    rfl


/-- C3: For every byte stream sigma, feeding sigma one byte at a time (polling
after each byte) yields the same concatenated event list, and leaves the same
residual bytes, as making all of sigma available at once and polling
repeatedly; and whenever the parser reports an incomplete escape sequence,
polling yields no event and consumes no bytes. -/
theorem decoder_incremental (σ : List Nat) :
    feedAll σ = oneShot σ ∧
      (tui_parse_escape_sequence σ = ParseResult.incomplete →
        oneShot σ = ([], σ)) :=
  ⟨feedAll_eq_oneShot σ, fun hinc => pollAll_incomplete σ.length σ hinc⟩

/-- Witness for C3 at the concrete stream [27] (a lone ESC is incomplete). -/
theorem decoder_incremental_witness :
    feedAll [27] = oneShot [27] ∧ oneShot [27] = ([], [27]) :=
  ⟨(decoder_incremental [27]).1, (decoder_incremental [27]).2 (by decide)⟩

/-! ### Evaluating the CSI parameter scanner on SGR mouse reports -/

/-- The value a run of ASCII digits accumulates in the scanner. -/
def digitsVal (ds : List Nat) : Nat :=
  ds.foldl (fun a d => a * 10 + (d - 48)) 0

theorem csiScan_digit_step (σ : List Nat) (i cur : Nat) (hd : Bool)
    (ps : List Nat) (h1 : i < σ.length) (h2 : i < 32)
    (h3 : 48 ≤ σ.getD i 0) (h4 : σ.getD i 0 ≤ 57) :
    csiScan σ i cur hd ps =
      csiScan σ (i + 1) (cur * 10 + (σ.getD i 0 - 48)) true ps := by
  rw [csiScan, if_pos ⟨h1, h2⟩]
  exact if_pos ⟨h3, h4⟩

theorem csiScan_semi_step (σ : List Nat) (i cur : Nat) (hd : Bool)
    (ps : List Nat) (h1 : i < σ.length) (h2 : i < 32)
    (h3 : σ.getD i 0 = 59) :
    csiScan σ i cur hd ps =
      csiScan σ (i + 1) 0 false (pushParam ps (if hd then cur else 0)) := by
  rw [csiScan, if_pos ⟨h1, h2⟩]
  exact (if_neg (by omega)).trans (if_pos h3)

theorem csiScan_final_step (σ : List Nat) (i cur : Nat) (hd : Bool)
    (ps : List Nat) (h1 : i < σ.length) (h2 : i < 32)
    (h3 : 64 ≤ σ.getD i 0) (h4 : σ.getD i 0 ≤ 126) :
    csiScan σ i cur hd ps =
      some (pushParam ps (if hd then cur else 0), i, σ.getD i 0) := by
  rw [csiScan, if_pos ⟨h1, h2⟩]
  exact (if_neg (by omega)).trans ((if_neg (by omega)).trans
    (if_pos ⟨h3, h4⟩))

theorem csiScan_digit_run (ds : List Nat) :
    ∀ (pre rest : List Nat) (cur : Nat) (hd : Bool) (ps : List Nat),
      (∀ d ∈ ds, 48 ≤ d ∧ d ≤ 57) →
      pre.length + ds.length ≤ 32 →
      csiScan (pre ++ ds ++ rest) pre.length cur hd ps =
        csiScan (pre ++ ds ++ rest) (pre.length + ds.length)
          (ds.foldl (fun a d => a * 10 + (d - 48)) cur)
          (hd || !ds.isEmpty) ps := by
  induction ds with
  | nil => intro pre rest cur hd ps _ _; simp
  | cons d ds ih =>
    intro pre rest cur hd ps hdig hw
    have hlen : pre.length < (pre ++ (d :: ds) ++ rest).length := by
      simp
    have hat : (pre ++ (d :: ds) ++ rest).getD pre.length 0 = d := by
      rw [List.append_assoc,
        List.getD_append_right pre _ 0 pre.length (le_refl _)]
      simp
    have hdd := hdig d (List.mem_cons_self d ds)
    rw [csiScan_digit_step _ _ _ _ _ hlen (by simp at hw; omega)
      (by rw [hat]; exact hdd.1) (by rw [hat]; exact hdd.2), hat]
    have hre : pre ++ (d :: ds) ++ rest = (pre ++ [d]) ++ ds ++ rest := by
      simp
    rw [hre]
    have := ih (pre ++ [d]) rest (cur * 10 + (d - 48)) true ps
      (fun x hx => hdig x (List.mem_cons_of_mem d hx))
      (by simp at hw ⊢; omega)
    simp only [List.length_append, List.length_cons, List.length_nil] at this ⊢
    rw [this]
    simp [Nat.add_assoc, Nat.add_comm 1 ds.length]

theorem getD_at_concat (A B : List Nat) (b : Nat) :
    (A ++ b :: B).getD A.length 0 = b := by
  rw [List.getD_append_right A _ 0 A.length (le_refl _)]
  simp

theorem csiScan_run_at (σ pre ds rest : List Nat) (i j cur v : Nat)
    (hd b' : Bool) (ps : List Nat)
    (hσ : σ = pre ++ ds ++ rest) (hi : i = pre.length)
    (hj : j = i + ds.length)
    (hv : v = ds.foldl (fun a d => a * 10 + (d - 48)) cur)
    (hbq : b' = (hd || !ds.isEmpty))
    (hdig : ∀ d ∈ ds, 48 ≤ d ∧ d ≤ 57) (hw : j ≤ 32) :
    csiScan σ i cur hd ps = csiScan σ j v b' ps := by
  subst hσ hi hj hv hbq
  exact csiScan_digit_run ds pre rest cur hd ps hdig (by omega)

theorem csiScan_semi_at (σ : List Nat) (i j cur : Nat) (hd : Bool)
    (ps ps' : List Nat)
    (h1 : i < σ.length) (h2 : i < 32) (hat : σ.getD i 0 = 59)
    (hj : j = i + 1) (hps : ps' = pushParam ps (if hd then cur else 0)) :
    csiScan σ i cur hd ps = csiScan σ j 0 false ps' := by
  subst hj hps
  exact csiScan_semi_step σ i cur hd ps h1 h2 hat

theorem csiScan_final_at (σ : List Nat) (i cur : Nat) (hd : Bool)
    (ps res : List Nat) (fc : Nat)
    (h1 : i < σ.length) (h2 : i < 32) (hat : σ.getD i 0 = fc)
    (h3 : 64 ≤ fc) (h4 : fc ≤ 126)
    (hres : res = pushParam ps (if hd then cur else 0)) :
    csiScan σ i cur hd ps = some (res, i, fc) := by
  subst hres
  rw [csiScan_final_step σ i cur hd ps h1 h2 (by rw [hat]; exact h3)
    (by rw [hat]; exact h4), hat]

theorem sgr_scan (σ dbs dxs dys : List Nat) (fc L : Nat)
    (hσ : σ = [27, 91, 60] ++ dbs ++ [59] ++ dxs ++ [59] ++ dys ++ [fc])
    (hL : L = 3 + dbs.length + 1 + dxs.length + 1 + dys.length)
    (hb : dbs ≠ []) (hx : dxs ≠ []) (hy : dys ≠ [])
    (hdb : ∀ d ∈ dbs, 48 ≤ d ∧ d ≤ 57)
    (hdx : ∀ d ∈ dxs, 48 ≤ d ∧ d ≤ 57)
    (hdy : ∀ d ∈ dys, 48 ≤ d ∧ d ≤ 57)
    (hfc : 64 ≤ fc ∧ fc ≤ 126) (hw : L < 32) :
    tui_parse_csi_params σ 3 =
      some ([digitsVal dbs, digitsVal dxs, digitsVal dys], L, fc) := by
  subst hL
  have hbe : dbs.isEmpty = false := by
    cases dbs with
    | nil => exact absurd rfl hb
    | cons a t => rfl
  have hxe : dxs.isEmpty = false := by
    cases dxs with
    | nil => exact absurd rfl hx
    | cons a t => rfl
  have hye : dys.isEmpty = false := by
    cases dys with
    | nil => exact absurd rfl hy
    | cons a t => rfl
  have hσlen :
      σ.length = 3 + dbs.length + 1 + dxs.length + 1 + dys.length + 1 := by
    rw [hσ]
    simp only [List.length_append, List.length_cons, List.length_nil] <;> omega
  have hat1 : σ.getD (3 + dbs.length) 0 = 59 := by
    rw [hσ, show ([27, 91, 60] : List Nat) ++ dbs ++ [59] ++ dxs ++ [59] ++
          dys ++ [fc] =
        ([27, 91, 60] ++ dbs) ++ 59 :: (dxs ++ 59 :: (dys ++ [fc])) from
        by simp,
      show 3 + dbs.length = ([27, 91, 60] ++ dbs).length from by
        simp only [List.length_append, List.length_cons, List.length_nil] <;> omega]
    exact getD_at_concat _ _ _
  have hat2 : σ.getD (3 + dbs.length + 1 + dxs.length) 0 = 59 := by
    rw [hσ, show ([27, 91, 60] : List Nat) ++ dbs ++ [59] ++ dxs ++ [59] ++
          dys ++ [fc] =
        ([27, 91, 60] ++ dbs ++ [59] ++ dxs) ++ 59 :: (dys ++ [fc]) from
        by simp,
      show 3 + dbs.length + 1 + dxs.length =
          ([27, 91, 60] ++ dbs ++ [59] ++ dxs).length from by
        simp only [List.length_append, List.length_cons, List.length_nil] <;> omega]
    exact getD_at_concat _ _ _
  have hat3 :
      σ.getD (3 + dbs.length + 1 + dxs.length + 1 + dys.length) 0 = fc := by
    rw [hσ, show ([27, 91, 60] : List Nat) ++ dbs ++ [59] ++ dxs ++ [59] ++
          dys ++ [fc] =
        ([27, 91, 60] ++ dbs ++ [59] ++ dxs ++ [59] ++ dys) ++ fc :: [] from
        by simp,
      show 3 + dbs.length + 1 + dxs.length + 1 + dys.length =
          ([27, 91, 60] ++ dbs ++ [59] ++ dxs ++ [59] ++ dys).length from by
        simp only [List.length_append, List.length_cons, List.length_nil] <;> omega]
    exact getD_at_concat _ _ _
  unfold tui_parse_csi_params
  rw [csiScan_run_at σ [27, 91, 60] dbs (59 :: (dxs ++ 59 :: (dys ++ [fc])))
    3 (3 + dbs.length) 0 (digitsVal dbs) false true []
    (by rw [hσ] <;> simp) rfl rfl rfl (by simp [hbe]) hdb (by omega)]
  rw [csiScan_semi_at σ (3 + dbs.length) (3 + dbs.length + 1)
    (digitsVal dbs) true [] [digitsVal dbs]
    (by omega) (by omega) hat1 rfl (by simp [pushParam])]
  rw [csiScan_run_at σ ([27, 91, 60] ++ dbs ++ [59]) dxs
    (59 :: (dys ++ [fc]))
    (3 + dbs.length + 1) (3 + dbs.length + 1 + dxs.length) 0
    (digitsVal dxs) false true [digitsVal dbs]
    (by rw [hσ] <;> simp)
    (by simp only [List.length_append, List.length_cons, List.length_nil] <;> omega)
    rfl rfl (by simp [hxe]) hdx (by omega)]
  rw [csiScan_semi_at σ (3 + dbs.length + 1 + dxs.length)
    (3 + dbs.length + 1 + dxs.length + 1) (digitsVal dxs) true
    [digitsVal dbs] [digitsVal dbs, digitsVal dxs]
    (by omega) (by omega) hat2 rfl (by simp [pushParam])]
  rw [csiScan_run_at σ ([27, 91, 60] ++ dbs ++ [59] ++ dxs ++ [59]) dys
    [fc]
    (3 + dbs.length + 1 + dxs.length + 1)
    (3 + dbs.length + 1 + dxs.length + 1 + dys.length) 0
    (digitsVal dys) false true [digitsVal dbs, digitsVal dxs]
    (by rw [hσ] <;> simp)
    (by simp only [List.length_append, List.length_cons, List.length_nil] <;> omega)
    rfl rfl (by simp [hye]) hdy (by omega)]
  rw [csiScan_final_at σ
    (3 + dbs.length + 1 + dxs.length + 1 + dys.length)
    (digitsVal dys) true [digitsVal dbs, digitsVal dxs]
    [digitsVal dbs, digitsVal dxs, digitsVal dys] fc
    (by omega) (by omega) hat3 hfc.1 hfc.2 (by simp [pushParam])]

/-- The event an SGR mouse report `ESC [ < Pb ; Px ; Py fc` decodes to:
coordinates are converted from 1-indexed to 0-indexed, and the button is
the `mouseButtonOf` switch on the final byte and `Pb`. -/
def sgrEvent (fc pb px py : Nat) : Event :=
  { type := .MOUSE,
    mouse_x := (px : Int) - 1,
    mouse_y := (py : Int) - 1,
    mouse_button := mouseButtonOf fc pb }

theorem sgr_mouse (σ dbs dxs dys : List Nat) (fc L : Nat)
    (hσ : σ = [27, 91, 60] ++ dbs ++ [59] ++ dxs ++ [59] ++ dys ++ [fc])
    (hL : L = 3 + dbs.length + 1 + dxs.length + 1 + dys.length)
    (hb : dbs ≠ []) (hx : dxs ≠ []) (hy : dys ≠ [])
    (hdb : ∀ d ∈ dbs, 48 ≤ d ∧ d ≤ 57)
    (hdx : ∀ d ∈ dxs, 48 ≤ d ∧ d ≤ 57)
    (hdy : ∀ d ∈ dys, 48 ≤ d ∧ d ≤ 57)
    (hfc : fc = 77 ∨ fc = 109) (hw : L < 32) :
    tui_parse_escape_sequence σ =
      .consumed (some (sgrEvent fc (digitsVal dbs) (digitsVal dxs)
        (digitsVal dys))) σ.length := by
  have hfc' : 64 ≤ fc ∧ fc ≤ 126 := by
    rcases hfc with h | h <;> subst h <;> exact ⟨by norm_num, by norm_num⟩
  have hscan := sgr_scan σ dbs dxs dys fc L hσ hL hb hx hy hdb hdx hdy
    hfc' hw
  have hσlen : σ.length = L + 1 := by
    rw [hσ, hL]
    simp only [List.length_append, List.length_cons, List.length_nil] <;>
      omega
  have g0 : σ.getD 0 0 = 27 := by rw [hσ]; rfl
  have g1 : σ.getD 1 0 = 91 := by rw [hσ]; rfl
  have g2 : σ.getD 2 0 = 60 := by rw [hσ]; rfl
  have c1 : (L + 1 < 1) = False := eq_false (by omega)
  have c2 : (L + 1 < 2) = False := eq_false (by omega)
  have c3 : (L + 1 < 3) = False := eq_false (by omega)
  rcases hfc with h | h <;> subst h <;>
    norm_num only [tui_parse_escape_sequence, parseEsc, parseCsi,
      parseMouse, sgrEvent, c1, c2, c3, g0, g1, g2, hscan, hσlen,
      List.length_cons, List.length_nil, List.getD_cons_zero,
      List.getD_cons_succ, if_true, if_false, eq_self_iff_true,
      false_and, true_and, true_or, false_or, and_true, and_self,
      ge_iff_le, le_refl]

theorem sgr_mouse_poll (σ dbs dxs dys : List Nat) (fc L : Nat)
    (hσ : σ = [27, 91, 60] ++ dbs ++ [59] ++ dxs ++ [59] ++ dys ++ [fc])
    (hL : L = 3 + dbs.length + 1 + dxs.length + 1 + dys.length)
    (hb : dbs ≠ []) (hx : dxs ≠ []) (hy : dys ≠ [])
    (hdb : ∀ d ∈ dbs, 48 ≤ d ∧ d ≤ 57)
    (hdx : ∀ d ∈ dxs, 48 ≤ d ∧ d ≤ 57)
    (hdy : ∀ d ∈ dys, 48 ≤ d ∧ d ≤ 57)
    (hfc : fc = 77 ∨ fc = 109) (hw : L < 32) :
    pollAll σ.length σ =
      ([sgrEvent fc (digitsVal dbs) (digitsVal dxs) (digitsVal dys)],
        []) := by
  have hp := sgr_mouse σ dbs dxs dys fc L hσ hL hb hx hy hdb hdx hdy
    hfc hw
  have hσlen : σ.length = L + 1 := by
    rw [hσ, hL]
    simp only [List.length_append, List.length_cons, List.length_nil] <;>
      omega
  rw [hσlen, pollAll_step L σ _ σ.length hp]
  simp [List.drop_length, pollAll_nil]

/-- C4 (amended): decoding a complete SGR mouse report
`ESC [ < Pb ; Px ; Py M-or-m` (decimal parameters inside the 32-byte scan
window) yields exactly one MOUSE event with 0-indexed coordinates
`(Px-1, Py-1)`; a final `m` always gives button RELEASE, and otherwise the
button is the switch on `Pb & 0x43`: 0 left, 1 middle, 2 right, 3 release,
64/65 wheel up/down — bit 32 of `Pb` selects MOVE only in the remaining
cases (`Pb & 0x43` = 66 or 67), not whenever it is set. -/
theorem sgr_mouse_report (σ dbs dxs dys : List Nat) (fc L : Nat)
    (hσ : σ = [27, 91, 60] ++ dbs ++ [59] ++ dxs ++ [59] ++ dys ++ [fc])
    (hL : L = 3 + dbs.length + 1 + dxs.length + 1 + dys.length)
    (hb : dbs ≠ []) (hx : dxs ≠ []) (hy : dys ≠ [])
    (hdb : ∀ d ∈ dbs, 48 ≤ d ∧ d ≤ 57)
    (hdx : ∀ d ∈ dxs, 48 ≤ d ∧ d ≤ 57)
    (hdy : ∀ d ∈ dys, 48 ≤ d ∧ d ≤ 57)
    (hfc : fc = 77 ∨ fc = 109) (hw : L < 32) :
    oneShot σ =
      ([sgrEvent fc (digitsVal dbs) (digitsVal dxs) (digitsVal dys)],
        []) ∧
    (fc = 109 →
      (sgrEvent fc (digitsVal dbs) (digitsVal dxs)
        (digitsVal dys)).mouse_button = MouseButton.RELEASE) ∧
    (∀ pb px py, pb &&& 0x43 = 66 ∨ pb &&& 0x43 = 67 →
      (sgrEvent 77 pb px py).mouse_button =
        if pb &&& 32 ≠ 0 then MouseButton.MOVE else MouseButton.NONE) := by
  refine ⟨sgr_mouse_poll σ dbs dxs dys fc L hσ hL hb hx hy hdb hdx hdy
    hfc hw, ?_, ?_⟩
  · intro h
    subst h
    rfl
  · intro pb px py hpb
    have h77 : (77 : Nat) ≠ 109 := by norm_num
    rcases hpb with h | h <;>
      simp [sgrEvent, mouseButtonOf, h, h77]

/-- C4 counterexample: `ESC [ < 35 ; 5 ; 3 M` has bit 32 set in its button
code (35 = 32 + 3), yet the decoder reports RELEASE, not MOVE, because the
button switch is on `button_code & 0x43` and 35 & 0x43 = 3. -/
theorem sgr_mouse_bit32_not_move :
    (35 : Nat) &&& 32 ≠ 0 ∧
    oneShot [27, 91, 60, 51, 53, 59, 53, 59, 51, 77] =
      ([sgrEvent 77 35 5 3], []) ∧
    (sgrEvent 77 35 5 3).mouse_button = MouseButton.RELEASE ∧
    MouseButton.RELEASE ≠ MouseButton.MOVE := by
  refine ⟨by decide, ?_, by decide, by decide⟩
  exact sgr_mouse_poll [27, 91, 60, 51, 53, 59, 53, 59, 51, 77]
    [51, 53] [53] [51] 77 9 rfl (by decide) (by decide) (by decide)
    (by decide) (by decide) (by decide) (by decide) (Or.inl rfl)
    (by decide)

/-- Witness for C4 at the two reports from the claim:
`ESC [ < 0 ; 5 ; 3 M` is a LEFT press at (4,2) and `ESC [ < 0 ; 5 ; 3 m`
is a RELEASE at (4,2). -/
theorem sgr_mouse_report_witness :
    oneShot [27, 91, 60, 48, 59, 53, 59, 51, 77] =
      ([sgrEvent 77 0 5 3], []) ∧
    (sgrEvent 77 0 5 3).mouse_button = MouseButton.LEFT ∧
    (sgrEvent 77 0 5 3).mouse_x = 4 ∧
    (sgrEvent 77 0 5 3).mouse_y = 2 ∧
    oneShot [27, 91, 60, 48, 59, 53, 59, 51, 109] =
      ([sgrEvent 109 0 5 3], []) ∧
    (sgrEvent 109 0 5 3).mouse_button = MouseButton.RELEASE := by
  refine ⟨?_, by decide, by decide, by decide, ?_, ?_⟩
  · exact (sgr_mouse_report [27, 91, 60, 48, 59, 53, 59, 51, 77]
      [48] [53] [51] 77 8 rfl (by decide) (by decide) (by decide)
      (by decide) (by decide) (by decide) (by decide) (Or.inl rfl)
      (by decide)).1
  · exact (sgr_mouse_report [27, 91, 60, 48, 59, 53, 59, 51, 109]
      [48] [53] [51] 109 8 rfl (by decide) (by decide) (by decide)
      (by decide) (by decide) (by decide) (by decide) (Or.inr rfl)
      (by decide)).1
  · exact (sgr_mouse_report [27, 91, 60, 48, 59, 53, 59, 51, 109]
      [48] [53] [51] 109 8 rfl (by decide) (by decide) (by decide)
      (by decide) (by decide) (by decide) (by decide) (Or.inr rfl)
      (by decide)).2.1 rfl

/-! ### Widget tree event routing (`tui_wm_route_event`)

Widgets live in an arena indexed by `Nat`; `parent` is the nullable parent
pointer.  A user handler is abstracted by the helper calls it makes
(`tui_widget_event_stop` / `_prevent` / `_consume`); the built-in default
input handling of the target is abstracted by whether it returns true
(`default_consumes`).  The dispatch state carries the three flags of
`tui_widget_event` plus the ordered trace of invocations. -/

/-- One registered handler entry (`tui_handler_entry`): its phase flag and
event type filter, and the effect of the user callback, abstracted by
which of the three event helpers it calls. -/
structure HandlerEntry where
  capture : Bool
  event_type : EventType
  stops : Bool
  prevents : Bool
  consumes : Bool
deriving DecidableEq, Repr

/-- A dispatch-trace entry: invocation of the `idx`-th handler of widget
`wid`, or the built-in default input handling of widget `wid`. -/
inductive Invocation where
  | handler (wid : Nat) (idx : Nat)
  | defaultAction (wid : Nat)
  | hotkey (idx : Nat) (target : Option Nat)
deriving DecidableEq, Repr

/-- The mutable part of `tui_widget_event` (`stopped`, `prevented`,
`consumed`) plus the ordered invocation trace. -/
structure RouteState where
  stopped : Bool
  prevented : Bool
  consumed : Bool
  trace : List Invocation
deriving DecidableEq, Repr

/-- The all-clear state `route_event` starts from. -/
def initRouteState : RouteState :=
  { stopped := false, prevented := false, consumed := false, trace := [] }

/-- A widget node: nullable parent pointer, registered handlers, and
whether `tui_widget_handle_default_input` reports the event consumed. -/
structure Widget where
  parent : Option Nat := none
  handlers : List HandlerEntry := []
  default_consumes : Bool := false

/-- The effect of invoking handler `idx` of widget `wid`:
`tui_widget_event_stop` sets `stopped`, `tui_widget_event_prevent` sets
`prevented`, `tui_widget_event_consume` sets `consumed` and `stopped`. -/
def invokeEntry (wid idx : Nat) (h : HandlerEntry) (st : RouteState) :
    RouteState :=
  { stopped := st.stopped || h.stops || h.consumes,
    prevented := st.prevented || h.prevents,
    consumed := st.consumed || h.consumes,
    trace := st.trace ++ [Invocation.handler wid idx] }

/-- The loop of `tui_widget_call_handlers`: walk the entries in
registration order while `!event->stopped`, invoking those whose phase
flag and event type match. -/
def callHandlersAux (wid : Nat) (etype : EventType) (capture : Bool) :
    List HandlerEntry → Nat → RouteState → RouteState
  | [], _, st => st
  | h :: rest, idx, st =>
    if st.stopped then st
    else if h.capture = capture ∧ h.event_type = etype then
      callHandlersAux wid etype capture rest (idx + 1)
        (invokeEntry wid idx h st)
    else callHandlersAux wid etype capture rest (idx + 1) st

/-- `tui_widget_call_handlers` on widget `wid` for one phase. -/
def tui_widget_call_handlers (W : Nat → Widget) (wid : Nat)
    (etype : EventType) (capture : Bool) (st : RouteState) : RouteState :=
  callHandlersAux wid etype capture (W wid).handlers 0 st

/-- The counting loop of `tui_widget_build_path`: follow parent pointers
from the target, collecting at most `fuel` widgets (target first). -/
def pathWalk (W : Nat → Widget) : Option Nat → Nat → List Nat
  | _, 0 => []
  | none, _ + 1 => []
  | some w, fuel + 1 => w :: pathWalk W (W w).parent fuel

/-- `tui_widget_build_path` with `max_depth = 64`: the collected chain,
reversed to root-side-first order. -/
def tui_widget_build_path (W : Nat → Widget) (target : Nat) : List Nat :=
  (pathWalk W (some target) 64).reverse

/-- The three dispatch phases of `tui_wm_route_event` along a given
root-side-first list of proper ancestors `anc`: capture handlers down
`anc`, then at the target its capture handlers, the default input
handling (unless stopped or prevented; it sets `consumed` when the
widget's handler returns true), and its bubble handlers — the whole
target phase skipped when already stopped — then bubble handlers up
`anc` reversed.  A stopped event makes every later `callHandlersAux`
step a no-op. -/
def dispatchAlong (W : Nat → Widget) (etype : EventType) (anc : List Nat)
    (target : Nat) (st0 : RouteState) : RouteState :=
  let st1 := anc.foldl
    (fun st wid => tui_widget_call_handlers W wid etype true st) st0
  let st2 :=
    if st1.stopped then st1
    else
      let sa := tui_widget_call_handlers W target etype true st1
      let sb :=
        if sa.stopped || sa.prevented then sa
        else
          { sa with
            consumed := sa.consumed || (W target).default_consumes,
            trace := sa.trace ++ [Invocation.defaultAction target] }
      tui_widget_call_handlers W target etype false sb
  anc.reverse.foldl
    (fun st wid => tui_widget_call_handlers W wid etype false st) st2

/-- The dispatch part of `tui_wm_route_event` (after Tab and hotkey
handling and target resolution): build the capped path and run the three
phases along it; the capture/bubble loops cover `path[0 .. path_len-2]`
and the target phase uses the target itself. -/
def dispatchToTarget (W : Nat → Widget) (etype : EventType)
    (target : Nat) (st0 : RouteState) : RouteState :=
  dispatchAlong W etype (tui_widget_build_path W target).dropLast
    target st0

/-- `target :: ancs` is a complete parent chain, target first: each
node's parent is the next entry and the last entry is the root. -/
def upChainB (W : Nat → Widget) : List Nat → Bool
  | [] => false
  | [w] => (W w).parent == none
  | a :: b :: rest => ((W a).parent == some b) && upChainB W (b :: rest)

theorem pathWalk_upChain (W : Nat → Widget) (ancs : List Nat) :
    ∀ (target fuel : Nat), upChainB W (target :: ancs) = true →
      (target :: ancs).length ≤ fuel →
      pathWalk W (some target) fuel = target :: ancs := by
  induction ancs with
  | nil =>
    intro target fuel hch hf
    obtain ⟨f, rfl⟩ : ∃ f, fuel = f + 1 := ⟨fuel - 1, by simp at hf; omega⟩
    have hp : (W target).parent = none := by
      simpa [upChainB] using hch
    cases f with
    | zero => simp [pathWalk, hp]
    | succ f => simp [pathWalk, hp]
  | cons b rest ih =>
    intro target fuel hch hf
    obtain ⟨f, rfl⟩ : ∃ f, fuel = f + 1 := ⟨fuel - 1, by simp at hf; omega⟩
    have hp : (W target).parent = some b ∧ upChainB W (b :: rest) = true := by
      simpa [upChainB] using hch
    rw [pathWalk, hp.1, ih b f hp.2 (by simp at hf ⊢; omega)]

/-- C5 (amended): for every event dispatched to a target widget whose
parent chain (target included) fits the 64-entry path buffer, handler
invocations follow exactly the advertised order — capture handlers on the
proper ancestors root-first, capture handlers on the target, the built-in
default behavior of the target (skipped if stopped or prevented), bubble
handlers on the target, bubble handlers on the ancestors leaf-first — and
once the event is stopped, any further handler-calling step invokes
nothing. -/
theorem route_dispatch_order (W : Nat → Widget) (etype : EventType)
    (target : Nat) (ancs : List Nat) (st0 : RouteState)
    (hch : upChainB W (target :: ancs) = true)
    (hd : ancs.length + 1 ≤ 64) :
    dispatchToTarget W etype target st0 =
      dispatchAlong W etype ancs.reverse target st0 ∧
    (∀ wid c st, st.stopped = true →
      tui_widget_call_handlers W wid etype c st = st) := by
  constructor
  · unfold dispatchToTarget
    have hp : tui_widget_build_path W target = (target :: ancs).reverse := by
      unfold tui_widget_build_path
      rw [pathWalk_upChain W ancs target 64 hch (by simp at hd ⊢; omega)]
    rw [hp, List.reverse_cons]
    simp
  · intro wid c st hst
    unfold tui_widget_call_handlers
    cases h : (W wid).handlers with
    | nil => rfl
    | cons a l => simp [callHandlersAux, hst]

/-- A capture-phase KEY handler that calls none of the event helpers. -/
def rootHandler : HandlerEntry :=
  { capture := true, event_type := EventType.KEY, stops := false,
    prevents := false, consumes := false }

/-- A linear arena: widget 0 is the root and carries a capture KEY
handler; widget `i + 1` is a child of widget `i`. -/
def deepW : Nat → Widget := fun i =>
  if i = 0 then { parent := none, handlers := [rootHandler] }
  else { parent := some (i - 1) }

/-- C5 counterexample: routing a KEY event to widget 64 — a 65-deep
chain — never invokes the root's matching capture handler even though
nothing stopped the event, because `tui_widget_build_path` caps the path
at 64 entries; the trace holds only the target's default action.  With
target 63 (depth exactly 64) the same root handler fires first. -/
theorem route_deep_chain_skips_root :
    (deepW 0).handlers = [rootHandler] ∧
    (dispatchToTarget deepW EventType.KEY 64 initRouteState).stopped
      = false ∧
    (dispatchToTarget deepW EventType.KEY 64 initRouteState).trace =
      [Invocation.defaultAction 64] ∧
    (dispatchToTarget deepW EventType.KEY 63 initRouteState).trace =
      [Invocation.handler 0 0, Invocation.defaultAction 63] := by
  refine ⟨rfl, ?_, ?_, ?_⟩ <;> decide

/-- Witness for C5 on the three-widget chain 0 → 1 → 2: the dispatch
runs along the full ancestor list [0, 1], and a stopped state is left
untouched by a handler-calling step. -/
theorem route_dispatch_order_witness :
    upChainB deepW [2, 1, 0] = true ∧
    dispatchToTarget deepW EventType.KEY 2 initRouteState =
      dispatchAlong deepW EventType.KEY [0, 1] 2 initRouteState ∧
    tui_widget_call_handlers deepW 0 EventType.KEY true
        { initRouteState with stopped := true } =
      { initRouteState with stopped := true } := by
  have h := route_dispatch_order deepW EventType.KEY 2 [1, 0]
    initRouteState (by decide) (by decide)
  exact ⟨by decide, h.1, h.2 0 true _ rfl⟩

/-! ### Hotkeys and the full routing entry point -/

/-- One `tui_hotkey` table entry.  The stored modifiers are not consulted
by the matching code; `has_handler` models the non-NULL handler check and
`consumes` abstracts whether the callback marks the event consumed. -/
structure Hotkey where
  key : Key
  ch : Nat := 0
  ctrl : Bool := false
  alt : Bool := false
  shift : Bool := false
  active : Bool := true
  has_handler : Bool := true
  consumes : Bool := false
deriving DecidableEq, Repr

/-- The match test of `tui_wm_check_hotkeys`: a `CHAR` entry compares
the character, any other entry compares the key alone. -/
def hotkeyMatches (hk : Hotkey) (e : Event) : Bool :=
  if hk.key = Key.CHAR then e.key == Key.CHAR && e.ch == hk.ch
  else e.key == hk.key

/-- The effect of invoking hotkey entry `i` (the callback receives a
NULL target widget, recorded in the trace): it may mark the event
consumed. -/
def hotkeyInvoke (i : Nat) (hk : Hotkey) (st : RouteState) : RouteState :=
  { st with
    consumed := st.consumed || hk.consumes,
    trace := st.trace ++ [Invocation.hotkey i none] }

/-- The scan loop of `tui_wm_check_hotkeys`: walk the table in
registration order; an active, matching entry with a handler is invoked;
return true as soon as the event is consumed. -/
def checkHotkeysAux (e : Event) :
    List Hotkey → Nat → RouteState → Bool × RouteState
  | [], _, st => (false, st)
  | hk :: rest, i, st =>
    if hk.active && hotkeyMatches hk e && hk.has_handler then
      if (hotkeyInvoke i hk st).consumed then (true, hotkeyInvoke i hk st)
      else checkHotkeysAux e rest (i + 1) (hotkeyInvoke i hk st)
    else checkHotkeysAux e rest (i + 1) st

/-- `tui_wm_check_hotkeys`: only KEY events are matched. -/
def tui_wm_check_hotkeys (hks : List Hotkey) (e : Event)
    (st : RouteState) : Bool × RouteState :=
  if e.type ≠ EventType.KEY then (false, st)
  else checkHotkeysAux e hks 0 st

/-- `tui_wm_route_event`: Tab short-circuits to focus navigation, then
hotkeys run and a consumed event ends routing; otherwise the target is
the hit-test result (`hit` abstracts `tui_wm_hit_test`) for mouse events
and the focused widget for the rest, falling back to the root, and the
event is dispatched through the three phases. -/
def tui_wm_route_event (W : Nat → Widget) (root focus hit : Option Nat)
    (hks : List Hotkey) (e : Event) : RouteState :=
  if e.type = EventType.KEY ∧ e.key = Key.TAB then initRouteState
  else if (tui_wm_check_hotkeys hks e initRouteState).1 then
    (tui_wm_check_hotkeys hks e initRouteState).2
  else
    match (if e.type = EventType.MOUSE then hit else focus), root with
    | some t, _ =>
      dispatchToTarget W e.type t
        (tui_wm_check_hotkeys hks e initRouteState).2
    | none, some t =>
      dispatchToTarget W e.type t
        (tui_wm_check_hotkeys hks e initRouteState).2
    | none, none => (tui_wm_check_hotkeys hks e initRouteState).2

/-- `s'` extends `s` by appending trace entries only. -/
def TraceExt (s s' : RouteState) : Prop :=
  ∃ t, s'.trace = s.trace ++ t

theorem traceExt_refl (s : RouteState) : TraceExt s s :=
  ⟨[], by simp⟩

theorem traceExt_trans {a b c : RouteState} (h1 : TraceExt a b)
    (h2 : TraceExt b c) : TraceExt a c := by
  obtain ⟨t1, h1⟩ := h1
  obtain ⟨t2, h2⟩ := h2
  exact ⟨t1 ++ t2, by rw [h2, h1, List.append_assoc]⟩

theorem callHandlersAux_trace_ext (wid : Nat) (ety : EventType)
    (c : Bool) :
    ∀ (l : List HandlerEntry) (i : Nat) (st : RouteState),
      TraceExt st (callHandlersAux wid ety c l i st) := by
  intro l
  induction l with
  | nil => intro i st; exact traceExt_refl _
  | cons h rest ih =>
    intro i st
    rw [callHandlersAux]
    split_ifs with h1 h2
    · exact traceExt_refl _
    · refine traceExt_trans ?_ (ih (i + 1) (invokeEntry wid i h st))
      exact ⟨[Invocation.handler wid i], rfl⟩
    · exact ih (i + 1) st

theorem call_handlers_trace_ext (W : Nat → Widget) (wid : Nat)
    (ety : EventType) (c : Bool) (st : RouteState) :
    TraceExt st (tui_widget_call_handlers W wid ety c st) :=
  callHandlersAux_trace_ext wid ety c (W wid).handlers 0 st

theorem foldl_call_trace_ext (W : Nat → Widget) (ety : EventType)
    (c : Bool) :
    ∀ (ws : List Nat) (st : RouteState),
      TraceExt st (ws.foldl
        (fun st wid => tui_widget_call_handlers W wid ety c st) st) := by
  intro ws
  induction ws with
  | nil => intro st; exact traceExt_refl _
  | cons w rest ih =>
    intro st
    rw [List.foldl_cons]
    exact traceExt_trans (call_handlers_trace_ext W w ety c st)
      (ih (tui_widget_call_handlers W w ety c st))

theorem dispatchAlong_trace_ext (W : Nat → Widget) (ety : EventType)
    (anc : List Nat) (target : Nat) (st0 : RouteState) :
    TraceExt st0 (dispatchAlong W ety anc target st0) := by
  unfold dispatchAlong
  refine traceExt_trans (traceExt_trans (foldl_call_trace_ext W ety true
    anc st0) ?_) (foldl_call_trace_ext W ety false anc.reverse _)
  split_ifs with h1
  · exact traceExt_refl _
  · refine traceExt_trans (call_handlers_trace_ext W target ety true _) ?_
    refine traceExt_trans ?_ (call_handlers_trace_ext W target ety false _)
    split_ifs with h2
    · exact traceExt_refl _
    · exact ⟨[Invocation.defaultAction target], rfl⟩

theorem dispatchToTarget_trace_ext (W : Nat → Widget) (ety : EventType)
    (target : Nat) (st0 : RouteState) :
    TraceExt st0 (dispatchToTarget W ety target st0) :=
  dispatchAlong_trace_ext W ety _ target st0

theorem checkHotkeysAux_trace_ext (e : Event) :
    ∀ (l : List Hotkey) (i : Nat) (st : RouteState),
      TraceExt st (checkHotkeysAux e l i st).2 := by
  intro l
  induction l with
  | nil => intro i st; exact traceExt_refl _
  | cons hk rest ih =>
    intro i st
    rw [checkHotkeysAux]
    split_ifs with h1 h2
    · exact ⟨[Invocation.hotkey i none], rfl⟩
    · exact traceExt_trans ⟨[Invocation.hotkey i none], rfl⟩ (ih (i + 1) _)
    · exact ih (i + 1) st

theorem checkHotkeysAux_entries (e : Event) :
    ∀ (l : List Hotkey) (i : Nat) (st : RouteState),
      ∀ inv ∈ (checkHotkeysAux e l i st).2.trace,
        inv ∈ st.trace ∨ ∃ j, inv = Invocation.hotkey j none := by
  intro l
  induction l with
  | nil => intro i st inv hm; exact Or.inl hm
  | cons hk rest ih =>
    intro i st inv hm
    rw [checkHotkeysAux] at hm
    split_ifs at hm with h1 h2
    · simp only [hotkeyInvoke] at hm
      rcases List.mem_append.mp hm with h | h
      · exact Or.inl h
      · exact Or.inr ⟨i, by simpa using h⟩
    · rcases ih (i + 1) _ inv hm with h | h
      · simp only [hotkeyInvoke] at h
        rcases List.mem_append.mp h with h' | h'
        · exact Or.inl h'
        · exact Or.inr ⟨i, by simpa using h'⟩
      · exact Or.inr h
    · exact ih (i + 1) st inv hm

theorem checkHotkeysAux_first (e : Event) (pre : List Hotkey) :
    ∀ (hk : Hotkey) (rest : List Hotkey) (i : Nat) (st : RouteState),
      (∀ h ∈ pre, (h.active && hotkeyMatches h e && h.has_handler)
        = false) →
      (hk.active && hotkeyMatches hk e && hk.has_handler) = true →
      ∃ tail, (checkHotkeysAux e (pre ++ hk :: rest) i st).2.trace =
        st.trace ++ Invocation.hotkey (i + pre.length) none :: tail := by
  induction pre with
  | nil =>
    intro hk rest i st _ hhk
    rw [List.nil_append, checkHotkeysAux, if_pos hhk]
    split_ifs with h2
    · exact ⟨[], by simp [hotkeyInvoke]⟩
    · obtain ⟨t, ht⟩ := checkHotkeysAux_trace_ext e rest (i + 1)
        (hotkeyInvoke i hk st)
      refine ⟨t, ?_⟩
      rw [ht]
      simp [hotkeyInvoke]
  | cons p pre ih =>
    intro hk rest i st hpre hhk
    rw [List.cons_append, checkHotkeysAux,
      if_neg (by simp [hpre p (List.mem_cons_self p pre)])]
    obtain ⟨tail, ht⟩ := ih hk rest (i + 1) st
      (fun h hm => hpre h (List.mem_cons_of_mem p hm)) hhk
    refine ⟨tail, ?_⟩
    rw [ht, show i + 1 + pre.length = i + (p :: pre).length from by
      simp only [List.length_cons] <;> omega]

/-- C9: for a KEY event that is not Tab, the first active matching table
entry with a handler is the first invocation of the routing — with a
NULL target, as for every hotkey invocation; when the hotkey scan
reports the event consumed, routing returns the scan state itself (no
widget dispatch); when it does not, routing proceeds to the normal
phased dispatch on the focused widget. -/
theorem hotkey_first_match_gates_dispatch
    (W : Nat → Widget) (root focus hit : Option Nat)
    (e : Event) (pre : List Hotkey) (hk : Hotkey) (rest : List Hotkey)
    (htype : e.type = EventType.KEY) (hkey : e.key ≠ Key.TAB)
    (hpre : ∀ h ∈ pre,
      (h.active && hotkeyMatches h e && h.has_handler) = false)
    (hhk : (hk.active && hotkeyMatches hk e && hk.has_handler) = true) :
    (tui_wm_route_event W root focus hit (pre ++ hk :: rest)
        e).trace.head? = some (Invocation.hotkey pre.length none) ∧
    (∀ inv ∈ (tui_wm_check_hotkeys (pre ++ hk :: rest) e
        initRouteState).2.trace, ∃ j, inv = Invocation.hotkey j none) ∧
    ((tui_wm_check_hotkeys (pre ++ hk :: rest) e initRouteState).1
        = true →
      tui_wm_route_event W root focus hit (pre ++ hk :: rest) e =
        (tui_wm_check_hotkeys (pre ++ hk :: rest) e initRouteState).2) ∧
    ((tui_wm_check_hotkeys (pre ++ hk :: rest) e initRouteState).1
        = false →
      ∀ t, focus = some t →
        tui_wm_route_event W root focus hit (pre ++ hk :: rest) e =
          dispatchToTarget W e.type t
            (tui_wm_check_hotkeys (pre ++ hk :: rest) e
              initRouteState).2) := by
  have hnottab : ¬(e.type = EventType.KEY ∧ e.key = Key.TAB) :=
    fun h => hkey h.2
  have hchk : tui_wm_check_hotkeys (pre ++ hk :: rest) e initRouteState =
      checkHotkeysAux e (pre ++ hk :: rest) 0 initRouteState := by
    unfold tui_wm_check_hotkeys
    rw [if_neg (by simp [htype])]
  have hkm : (EventType.KEY = EventType.MOUSE) = False := by simp
  refine ⟨?_, ?_, ?_, ?_⟩
  · have hext : TraceExt
        (tui_wm_check_hotkeys (pre ++ hk :: rest) e initRouteState).2
        (tui_wm_route_event W root focus hit (pre ++ hk :: rest) e) := by
      unfold tui_wm_route_event
      rw [if_neg hnottab, htype]
      simp only [hkm, if_false]
      split_ifs with h1
      · exact traceExt_refl _
      · cases focus with
        | some t => exact dispatchToTarget_trace_ext W _ t _
        | none =>
          cases root with
          | some t => exact dispatchToTarget_trace_ext W _ t _
          | none => exact traceExt_refl _
    obtain ⟨ext, hex⟩ := hext
    obtain ⟨tail, htr⟩ :=
      checkHotkeysAux_first e pre hk rest 0 initRouteState hpre hhk
    rw [hex, hchk, htr]
    simp [initRouteState]
  · intro inv hm
    rw [hchk] at hm
    rcases checkHotkeysAux_entries e (pre ++ hk :: rest) 0
        initRouteState inv hm with h | h
    · simp [initRouteState] at h
    · exact h
  · intro h1
    unfold tui_wm_route_event
    rw [if_neg hnottab, if_pos h1]
  · intro h1 t hf
    unfold tui_wm_route_event
    rw [if_neg hnottab, if_neg (by simp [h1]), htype, hf]
    simp only [hkm, if_false]

/-- An inactive Ctrl-A-style CHAR hotkey entry. -/
def hkOff : Hotkey := { key := Key.CHAR, ch := 97, active := false }

/-- An active, consuming CHAR hotkey entry for the letter a. -/
def hkOn : Hotkey := { key := Key.CHAR, ch := 97, consumes := true }

/-- An active CHAR hotkey entry for the letter a that does not consume. -/
def hkNC : Hotkey := { key := Key.CHAR, ch := 97 }

/-- The KEY event for the plain letter a. -/
def charAEvent : Event :=
  { type := EventType.KEY, key := Key.CHAR, ch := 97 }

/-- Witness for C9: with table [inactive, consuming] the scan invokes
entry 1 first (NULL target) and routing returns the scan state with no
widget dispatch; with table [inactive, non-consuming] routing falls
through to the phased dispatch on the focused widget 0. -/
theorem hotkey_first_match_gates_dispatch_witness :
    (tui_wm_route_event deepW none none none [hkOff, hkOn]
        charAEvent).trace.head? = some (Invocation.hotkey 1 none) ∧
    (tui_wm_check_hotkeys [hkOff, hkOn] charAEvent initRouteState).1
      = true ∧
    tui_wm_route_event deepW none none none [hkOff, hkOn] charAEvent =
      (tui_wm_check_hotkeys [hkOff, hkOn] charAEvent initRouteState).2 ∧
    tui_wm_route_event deepW none (some 0) none [hkOff, hkNC]
        charAEvent =
      dispatchToTarget deepW charAEvent.type 0
        (tui_wm_check_hotkeys [hkOff, hkNC] charAEvent
          initRouteState).2 := by
  have h1 := hotkey_first_match_gates_dispatch deepW none none none
    charAEvent [hkOff] hkOn [] rfl (by decide) (by decide) (by decide)
  have h2 := hotkey_first_match_gates_dispatch deepW none (some 0) none
    charAEvent [hkOff] hkNC [] rfl (by decide) (by decide) (by decide)
  exact ⟨h1.1, by decide, h1.2.2.1 (by decide),
    h2.2.2.2 (by decide) 0 rfl⟩

/-! ### Textarea: splitting a line on Enter

The slice of `tui_widget_handle_textarea_input` reached by an Enter key
event: the entry guards, the editable gate (Enter is not a navigation
key), and the `TUI_KEY_ENTER` case.  A line is a byte list; a NULL
`char*` is `none`; the `lines` array of `line_capacity` slots is a
function from slot index, with `has_lines` modelling a NULL array
pointer.  A successful `malloc` is assumed. -/

structure TextareaState where
  has_lines : Bool := true
  lines : Nat → Option (List Nat)
  line_count : Nat
  line_capacity : Nat
  cursor_row : Nat := 0
  cursor_col : Nat := 0
  scroll_row : Nat := 0
  editable : Bool := true
  max_line_len : Nat := 0
  height : Nat := 0
  has_border : Bool := false

/-- `tui_widget_handle_textarea_input` on an Enter key event: returns
the handled flag and the updated state. -/
def textareaEnter (ta : TextareaState) : Bool × TextareaState :=
  if ¬ta.has_lines ∨ ta.line_count = 0 then (false, ta)
  else
    let max_line_len :=
      if ta.max_line_len > 0 then ta.max_line_len else 256
    let visible_rows := ta.height - (if ta.has_border then 2 else 0)
    let current_line := ta.lines ta.cursor_row
    if ¬ta.editable then (false, ta)
    else if ta.line_count < ta.line_capacity then
      let cur := current_line.getD []
      let after_cursor :=
        if current_line.isSome then cur.drop ta.cursor_col else []
      let new_line := after_cursor.take (max_line_len - 1)
      let row' := ta.cursor_row + 1
      (true,
        { ta with
          lines := fun i =>
            if i = ta.cursor_row then
              if current_line.isSome then some (cur.take ta.cursor_col)
              else current_line
            else if i = ta.cursor_row + 1 then some new_line
            else if ta.cursor_row + 1 < i ∧ i ≤ ta.line_count then
              ta.lines (i - 1)
            else ta.lines i,
          line_count := ta.line_count + 1,
          cursor_row := row',
          cursor_col := 0,
          scroll_row :=
            if row' ≥ ta.scroll_row + visible_rows then
              row' - visible_rows + 1
            else ta.scroll_row })
    else (true, ta)

/-- C6: an Enter key event on an editable textarea with spare line
capacity, whose current line is shorter than `max_line_len` and whose
cursor column lies within the line, is handled as a split: the line
count grows by one, the current line is truncated at the cursor column,
the next line receives exactly the text after the cursor (so the two
pieces together preserve the original character count), the cursor moves
to the new line at column 0, and the later lines shift down by one. -/
theorem textarea_enter_splits (ta : TextareaState) (l : List Nat)
    (hl : ta.has_lines = true)
    (hcnt : 0 < ta.line_count)
    (hcap : ta.line_count < ta.line_capacity)
    (hed : ta.editable = true)
    (hline : ta.lines ta.cursor_row = some l)
    (hml : 0 < ta.max_line_len)
    (hlen : l.length < ta.max_line_len)
    (hcol : ta.cursor_col ≤ l.length) :
    (textareaEnter ta).1 = true ∧
    (textareaEnter ta).2.line_count = ta.line_count + 1 ∧
    (textareaEnter ta).2.lines ta.cursor_row =
      some (l.take ta.cursor_col) ∧
    (textareaEnter ta).2.lines (ta.cursor_row + 1) =
      some (l.drop ta.cursor_col) ∧
    (l.take ta.cursor_col).length + (l.drop ta.cursor_col).length
      = l.length ∧
    (textareaEnter ta).2.cursor_row = ta.cursor_row + 1 ∧
    (textareaEnter ta).2.cursor_col = 0 ∧
    (∀ i, ta.cursor_row + 1 < i → i ≤ ta.line_count →
      (textareaEnter ta).2.lines i = ta.lines (i - 1)) ∧
    (∀ i, i < ta.cursor_row → (textareaEnter ta).2.lines i =
      ta.lines i) := by
  have hcnt0 : ¬ta.line_count = 0 := by omega
  have hmax : (if ta.max_line_len > 0 then ta.max_line_len else 256)
      = ta.max_line_len := if_pos hml
  have htake : (l.drop ta.cursor_col).take (ta.max_line_len - 1) =
      l.drop ta.cursor_col := by
    apply List.take_of_length_le
    rw [List.length_drop]
    omega
  refine ⟨?_, ?_, ?_, ?_, ?_, ?_, ?_, ?_, ?_⟩
  · simp [textareaEnter, hl, hcnt0, hed, hcap]
  · simp [textareaEnter, hl, hcnt0, hed, hcap]
  · simp [textareaEnter, hl, hcnt0, hed, hcap, hline]
  · simp [textareaEnter, hl, hcnt0, hed, hcap, hline, hmax, htake]
  · simp <;> omega
  · simp [textareaEnter, hl, hcnt0, hed, hcap]
  · simp [textareaEnter, hl, hcnt0, hed, hcap]
  · intro i h1 h2
    simp [textareaEnter, hl, hcnt0, hed, hcap,
      if_neg (by omega : ¬i = ta.cursor_row),
      if_neg (by omega : ¬i = ta.cursor_row + 1),
      if_pos (⟨h1, h2⟩ : ta.cursor_row + 1 < i ∧ i ≤ ta.line_count)]
  · intro i h1
    simp [textareaEnter, hl, hcnt0, hed, hcap,
      if_neg (by omega : ¬i = ta.cursor_row),
      if_neg (by omega : ¬i = ta.cursor_row + 1),
      if_neg (by omega : ¬(ta.cursor_row + 1 < i ∧ i ≤ ta.line_count))]

/-- A two-line buffer holding "Hello World" and an empty line slot. -/
def helloLines : Nat → Option (List Nat) := fun i =>
  if i = 0 then some [72, 101, 108, 108, 111, 32, 87, 111, 114, 108, 100]
  else none

/-- The textarea of the spec scenario: one line "Hello World", capacity
4, cursor at column 5. -/
def helloTa : TextareaState :=
  { lines := helloLines, line_count := 1, line_capacity := 4,
    cursor_col := 5, max_line_len := 64 }

/-- Witness for C6: Enter on "Hello World" at column 5 gives line 0
"Hello", line 1 " World", two lines, cursor (1,0), five plus six
characters. -/
theorem textarea_enter_splits_witness :
    (textareaEnter helloTa).1 = true ∧
    (textareaEnter helloTa).2.line_count = 2 ∧
    (textareaEnter helloTa).2.lines 0 = some [72, 101, 108, 108, 111] ∧
    (textareaEnter helloTa).2.lines 1 =
      some [32, 87, 111, 114, 108, 100] ∧
    (textareaEnter helloTa).2.cursor_row = 1 ∧
    (textareaEnter helloTa).2.cursor_col = 0 := by
  have h := textarea_enter_splits helloTa
    [72, 101, 108, 108, 111, 32, 87, 111, 114, 108, 100]
    rfl (by decide) (by decide) rfl rfl (by decide) (by decide)
    (by decide)
  exact ⟨h.1, h.2.1, h.2.2.1, h.2.2.2.1, h.2.2.2.2.2.1,
    h.2.2.2.2.2.2.1⟩

/-! ### NULL-handle totality of the public entry points

Nullable `tui_context*` / `tui_widget_manager*` / `tui_event*` /
`const char*` arguments become `Option` arguments; each wrapper is the
public function's NULL guard over the non-null body defined above. -/

/-- `tui_poll_event`: NULL context or NULL event pointer returns 0; one
decoder step otherwise (the context's terminal-mirror fields `mouse_x`,
`mouse_y`, `button_pressed` are not tracked here).  Returns the C result,
the produced event and the context. -/
def tui_poll_event (ctx : Option Context) (eventPtr : Bool) :
    Nat × Option Event × Option Context :=
  match ctx with
  | none => (0, none, none)
  | some c =>
    if ¬eventPtr then (0, none, some c)
    else
      match tui_parse_escape_sequence c.input with
      | .incomplete => (0, none, some c)
      | .consumed e n => (1, e, some { c with input := c.input.drop n })

/-- `tui_get_width`: `ctx ? ctx->width : 0`. -/
def tui_get_width (ctx : Option Context) : Nat :=
  match ctx with
  | some c => c.width
  | none => 0

/-- `tui_set_cell` with its NULL guard. -/
def tui_set_cell (ctx : Option Context) (x y : Int) (cp : Nat) :
    Option Context :=
  match ctx with
  | none => none
  | some c => some (setCell c x y cp)

/-- `tui_label` with its NULL guards on the context and the text. -/
def tui_label (ctx : Option Context) (x y : Int)
    (text : Option (List Nat)) : Option Context :=
  match ctx, text with
  | none, _ => none
  | some c, none => some c
  | some c, some t => some (label c x y t)

/-- `tui_begin_frame` with its NULL guard. -/
def tui_begin_frame (ctx : Option Context) : Option Context :=
  match ctx with
  | none => none
  | some c => some (beginFrame c)

/-- `tui_end_frame` with its NULL guard. -/
def tui_end_frame (ctx : Option Context) : Option Context :=
  match ctx with
  | none => none
  | some c => some (endFrame c)

/-- A `tui_widget_manager`: widget arena, root, focus and hotkey table. -/
structure WidgetManager where
  W : Nat → Widget
  root : Option Nat := none
  focus : Option Nat := none
  hotkeys : List Hotkey := []

/-- `tui_wm_route_event` with its NULL guards on manager and event. -/
def tui_wm_route_event_checked (wm : Option WidgetManager)
    (hit : Option Nat) (e : Option Event) : RouteState :=
  match wm, e with
  | none, _ => initRouteState
  | _, none => initRouteState
  | some m, some ev =>
    tui_wm_route_event m.W m.root m.focus hit m.hotkeys ev

/-- C10: every public operation is total on a NULL handle: polling a
NULL context produces 0 and no event, a NULL context reports width 0,
drawing calls and the frame functions leave everything unchanged and
emit nothing, and routing with a NULL manager (or NULL event) performs
no invocation at all. -/
theorem null_handle_total :
    (∀ ep, tui_poll_event none ep = (0, none, none)) ∧
    tui_get_width none = 0 ∧
    (∀ x y cp, tui_set_cell none x y cp = none) ∧
    (∀ x y t, tui_label none x y t = none) ∧
    tui_begin_frame none = none ∧
    tui_end_frame none = none ∧
    (∀ hit e, tui_wm_route_event_checked none hit e = initRouteState) ∧
    (∀ wm hit,
      tui_wm_route_event_checked wm hit none = initRouteState) :=
  ⟨fun _ => rfl, rfl, fun _ _ _ => rfl, fun _ _ _ => rfl, rfl, rfl,
    fun hit e => by cases e <;> rfl, fun wm hit => by cases wm <;> rfl⟩

end Tui
